import Mathlib

/-!
# Verification of the OpenWebUI model-icon fetcher

A shallow embedding of `OpenWebUI_Model_Icon_Fetcher.py` (the icon-resolution
pipeline): the identifier normalizer `slugify`, the icon-source strategies
`download_hf_card_image` and `fallback_provider_badge`, the default-icon
provisioner `ensure_default_icon`, the map builder `build_icon_map`, and the
mapping serializer `safe_write_json`.

Modelling conventions:
* The filesystem is an association list from file names (relative to the icon
  directory) to file contents (`List Nat` for binary files, `String` for the
  JSON artifact).
* Network traffic is an oracle `Oracle : String → NetResult` mapping a URL to
  the outcome of a `GET`: failure before any body byte is consumed
  (`NetResult.err`, covering non-2xx statuses, timeouts and transport errors
  raised by `requests.get`/`raise_for_status`), failure in the middle of the
  body stream after some bytes were already written (`NetResult.midStream`),
  or a complete body (`NetResult.ok`).  Every function that can touch the
  network also returns the list of URLs it requested, in order.
* Python `str` is modelled by `String`; `str.lower` is modelled on the ASCII
  range (the only range where the character classes and provider tokens of the
  program live).
-/

namespace MIF

/-! ## Characters and `slugify` -/

/-- The character class `[a-zA-Z0-9_-]` of the regex in `slugify`
(the class whose complement `re.sub` collapses to a dash), on code points. -/
def isAllowedChar (c : Char) : Bool :=
  (97 ≤ c.toNat && c.toNat ≤ 122) ||   -- a-z
  (65 ≤ c.toNat && c.toNat ≤ 90) ||    -- A-Z
  (48 ≤ c.toNat && c.toNat ≤ 57) ||    -- 0-9
  c.toNat == 95 ||                     -- _
  c.toNat == 45                        -- -

/-- Lower-case characters of the class above: `[a-z0-9_-]`. -/
def isLowerAllowed (c : Char) : Bool :=
  (97 ≤ c.toNat && c.toNat ≤ 122) ||
  (48 ≤ c.toNat && c.toNat ≤ 57) ||
  c.toNat == 95 ||
  c.toNat == 45

/-- Python `str.lower` on the ASCII range: `A`-`Z` maps to `a`-`z`, everything
else is unchanged.  The program only ever lower-cases before comparing against
ASCII character classes or ASCII provider tokens. -/
def pyLower (c : Char) : Char :=
  if 65 ≤ c.toNat ∧ c.toNat ≤ 90 then Char.ofNat (c.toNat + 32) else c

/-- The `re.sub` call of `slugify`: replace every maximal run of characters
outside the class with a single dash.  The boolean argument records whether
the previous character belonged to such a run (in which case the dash for the
current run has already been emitted). -/
def subRuns : Bool → List Char → List Char
  | _, [] => []
  | prevBad, c :: cs =>
    if isAllowedChar c then c :: subRuns false cs
    else if prevBad then subRuns true cs
    else '-' :: subRuns true cs

/-- The `strip` call of `slugify`: drop dashes from both ends. -/
def stripDash (l : List Char) : List Char :=
  ((l.dropWhile (fun c => c == '-')).reverse.dropWhile (fun c => c == '-')).reverse

/-- `slugify` (line 36): substitute the dash for every run outside the class,
strip dashes, lower-case, and substitute the token `unknown` for an empty
result. -/
def slugify (text : String) : String :=
  let clean := (stripDash (subRuns false text.data)).map pyLower
  if clean = [] then "unknown" else String.mk clean

/-- The value Python binds to `clean` in `slugify` (as a character list). -/
def slugClean (l : List Char) : List Char :=
  (stripDash (subRuns false l)).map pyLower

/-! ## Filesystem model -/

/-- A directory modelled as an association list from file name to content. -/
abbrev FS (α : Type) := List (String × α)

/-- Look a file up (first match). -/
def lookupFs {α : Type} : FS α → String → Option α
  | [], _ => none
  | (k, v) :: rest, key => if k = key then some v else lookupFs rest key

/-- Create or overwrite a file (replace the first binding in place, append if
absent) — the semantics of a binary-mode `open`/`write_bytes` on a single
directory. -/
def insertFs {α : Type} : FS α → String → α → FS α
  | [], key, v => [(key, v)]
  | (k, w) :: rest, key, v =>
    if k = key then (k, v) :: rest else (k, w) :: insertFs rest key v

/-! ## Network model -/

/-- Outcome of one `requests.get(url, stream=True)` download attempt.
`err`: the request itself or `raise_for_status` raises, before the destination
file is opened.  `midStream written`: the response headers are OK but the body
stream raises after `written` bytes were already written to the (already
created) destination file.  `ok body`: the whole body is downloaded. -/
inductive NetResult where
  | err : NetResult
  | midStream : List Nat → NetResult
  | ok : List Nat → NetResult

/-- The network, as a deterministic map from URL to download outcome. -/
abbrev Oracle := String → NetResult

/-- `download_file` (lines 51-63).  Returns the success flag, the directory
after the attempt, and the list of URLs requested.  On `err` nothing was
written; on `midStream` the destination file exists and holds the bytes
written before the failure (the binary-mode `open` block has already
created and truncated it); on `ok` the destination holds the full body. -/
def download_file (o : Oracle) (url : String) (dest : String) (fs : FS (List Nat)) :
    Bool × FS (List Nat) × List String :=
  match o url with
  | .err => (false, fs, [url])
  | .midStream written => (false, insertFs fs dest written, [url])
  | .ok body => (true, insertFs fs dest body, [url])

/-! ## Icon-source strategies -/

/-- Python `str.split` with a slash separator, on a character list: split at
every slash, keeping empty segments (splitting the empty string yields one
empty segment). -/
def splitSlash : List Char → List (List Char)
  | [] => [[]]
  | c :: cs =>
    if c = '/' then [] :: splitSlash cs
    else
      match splitSlash cs with
      | [] => [[c]]
      | seg :: segs => (c :: seg) :: segs

/-- Python `join` with a slash separator, on character lists. -/
def joinSlash : List (List Char) → List Char
  | [] => []
  | [seg] => seg
  | seg :: segs => seg ++ '/' :: joinSlash segs

/-- The Hugging-Face card URL built by `download_hf_card_image` from the first
two `/`-separated segments of the model id. -/
def hfUrl (model_id : String) : String :=
  "https://huggingface.co/" ++ String.mk (joinSlash ((splitSlash model_id.data).take 2))
    ++ "/raw/main/card.png"

/-- `download_hf_card_image` (lines 124-136). -/
def download_hf_card_image (o : Oracle) (model_id : String) (dest : String)
    (fs : FS (List Nat)) : Bool × FS (List Nat) × List String :=
  if (splitSlash model_id.data).length < 2 then (false, fs, [])
  else download_file o (hfUrl model_id) dest fs

/-- Substring containment on character lists (Python `in` on `str`). -/
def containsSub (needle : List Char) : List Char → Bool
  | [] => needle.isEmpty
  | c :: cs => needle.isPrefixOf (c :: cs) || containsSub needle cs

/-- The `provider_assets` mapping of `fallback_provider_badge` (lines 144-148),
in declaration order. -/
def provider_assets : List (String × String) :=
  [("gpt-", "https://raw.githubusercontent.com/openai/openai-python/master/assets/openai.png"),
   ("claude-", "https://cdn.clarifai.com/clarifai-logo.png")]

/-- The `for token, badge_url in provider_assets.items()` loop body of
`fallback_provider_badge`. -/
def badgeLoop (o : Oracle) (model_id : String) (dest : String) (fs : FS (List Nat)) :
    List (String × String) → Bool × FS (List Nat) × List String
  | [] => (false, fs, [])
  | (token, badge_url) :: rest =>
    if containsSub token.data (model_id.data.map pyLower) then
      download_file o badge_url dest fs
    else badgeLoop o model_id dest fs rest

/-- `fallback_provider_badge` (lines 139-152): first token (in declaration
order) contained in `model_id.lower()` wins; no match means no request. -/
def fallback_provider_badge (o : Oracle) (model_id : String) (dest : String)
    (fs : FS (List Nat)) : Bool × FS (List Nat) × List String :=
  badgeLoop o model_id dest fs provider_assets

/-! ## Default icon provisioner -/

/-- The embedded 1×1 transparent PNG of `ensure_default_icon` (lines 164-168),
byte for byte. -/
def transparent_png : List Nat :=
  [0x89, 0x50, 0x4e, 0x47, 0x0d, 0x0a, 0x1a, 0x0a, 0x00, 0x00, 0x00, 0x0d,
   0x49, 0x48, 0x44, 0x52, 0x00, 0x00, 0x00, 0x01, 0x00, 0x00, 0x00, 0x01,
   0x08, 0x06, 0x00, 0x00, 0x00, 0x1f, 0x15, 0xc4, 0x89, 0x00, 0x00, 0x00,
   0x0a, 0x49, 0x44, 0x41, 0x54, 0x78, 0x9c, 0x63, 0x60, 0x00, 0x00, 0x00,
   0x02, 0x00, 0x01, 0xe2, 0x21, 0xbc, 0x33, 0x00, 0x00, 0x00, 0x00, 0x49,
   0x45, 0x4e, 0x44, 0xae, 0x42, 0x60, 0x82]

/-- `ensure_default_icon` (lines 155-169): no-op when `default.png` exists,
otherwise write the embedded placeholder.  The second component is the list of
URLs requested (always empty: the placeholder is embedded, never fetched). -/
def ensure_default_icon (fs : FS (List Nat)) : FS (List Nat) × List String :=
  match lookupFs fs "default.png" with
  | some _ => (fs, [])
  | none => (insertFs fs "default.png" transparent_png, [])

/-! ## Icon map builder -/

/-- `resolve_icon_path` (lines 114-121), relative to the icon directory. -/
def resolve_icon_path (model_id : String) : String :=
  slugify model_id ++ ".png"

/-- State threaded through the `for model in models` loop of `build_icon_map`:
the icon directory, the URLs requested so far, and the mapping built so far. -/
structure BuildSt where
  fs : FS (List Nat)
  log : List String
  map : List (String × String)
deriving DecidableEq

/-- `mapping[model] = rel_url` on an insertion-ordered dict. -/
def insertMap (m : List (String × String)) (k v : String) : List (String × String) :=
  insertFs m k v

/-- Dict lookup. -/
def lookupMap (m : List (String × String)) (k : String) : Option String :=
  lookupFs m k

/-- The loop body of `build_icon_map` (lines 182-195). -/
def build_icon_map_step (o : Oracle) (st : BuildSt) (model : String) : BuildSt :=
  let target := resolve_icon_path model
  match lookupFs st.fs target with
  | some _ => { st with map := insertMap st.map model ("/icons/" ++ target) }
  | none =>
    match download_hf_card_image o model target st.fs with
    | (true, fs₁, log₁) =>
      { fs := fs₁, log := st.log ++ log₁, map := insertMap st.map model ("/icons/" ++ target) }
    | (false, fs₁, log₁) =>
      match fallback_provider_badge o model target fs₁ with
      | (true, fs₂, log₂) =>
        { fs := fs₂, log := st.log ++ log₁ ++ log₂,
          map := insertMap st.map model ("/icons/" ++ target) }
      | (false, fs₂, log₂) =>
        { fs := fs₂, log := st.log ++ log₁ ++ log₂,
          map := insertMap st.map model "/icons/default.png" }

/-- `build_icon_map` (lines 176-196), iterating over one enumeration of the
model-id set. -/
def build_icon_map (o : Oracle) (models : List String) (fs : FS (List Nat)) : BuildSt :=
  models.foldl (build_icon_map_step o) ⟨fs, [], []⟩

/-- The `main` sequencing relevant to icon resolution (lines 236-239):
provision the default icon, then build the map. -/
def run_pipeline (o : Oracle) (models : List String) (fs : FS (List Nat)) : BuildSt :=
  build_icon_map o models (ensure_default_icon fs).1

/-! ## Mapping serializer

`safe_write_json` calls `json.dump(data, fp, indent=2, sort_keys=True)` and
appends a newline.  The embedding reproduces the CPython encoder for a
string-to-string object: `sort_keys` sorts the `(key, value)` item tuples
lexicographically, `ensure_ascii` (the default) escapes `"` and `\`, keeps
printable ASCII `0x20`-`0x7e` literal, uses the short escapes
`\b \t \n \f \r`, and writes every other character as `\uXXXX` (a surrogate
pair for code points above `0xFFFF`). -/

/-- One lower-case hex digit. -/
def hexDigit (d : Nat) : Char :=
  Char.ofNat (if d < 10 then 48 + d else 87 + d)

/-- Four-digit lower-case hex with leading zeros, as produced by the
encoder (format code 04x). -/
def toHex4 (n : Nat) : List Char :=
  [hexDigit (n / 4096 % 16), hexDigit (n / 256 % 16), hexDigit (n / 16 % 16), hexDigit (n % 16)]

/-- CPython `json` `ensure_ascii` escaping of one character. -/
def escapeChar (c : Char) : List Char :=
  if c = '\\' then ['\\', '\\']
  else if c = '"' then ['\\', '"']
  else if 0x20 ≤ c.toNat ∧ c.toNat ≤ 0x7e then [c]
  else if c = '\n' then ['\\', 'n']
  else if c = '\t' then ['\\', 't']
  else if c = '\r' then ['\\', 'r']
  else if c.toNat = 8 then ['\\', 'b']
  else if c.toNat = 12 then ['\\', 'f']
  else if c.toNat < 0x10000 then '\\' :: 'u' :: toHex4 c.toNat
  else
    '\\' :: 'u' :: toHex4 (0xd800 ||| (((c.toNat - 0x10000) >>> 10) &&& 0x3ff))
      ++ '\\' :: 'u' :: toHex4 (0xdc00 ||| ((c.toNat - 0x10000) &&& 0x3ff))

def escapeList : List Char → List Char
  | [] => []
  | c :: cs => escapeChar c ++ escapeList cs

/-- The Python comparison `<` on strings: lexicographic by code point. -/
def lexLt : List Char → List Char → Bool
  | [], [] => false
  | [], _ :: _ => true
  | _ :: _, [] => false
  | a :: as, b :: bs =>
    if a.toNat < b.toNat then true
    else if b.toNat < a.toNat then false
    else lexLt as bs

/-- The item order used by the encoder under `sort_keys=True`
(`items = sorted(dct.items())`): lexicographic on the item tuples — on the
keys first, values breaking (impossible, for a dict) ties. -/
def pairLeB (a b : String × String) : Bool :=
  lexLt a.1.data b.1.data ||
    (a.1.data == b.1.data && (lexLt a.2.data b.2.data || a.2.data == b.2.data))

def pairLe (a b : String × String) : Prop :=
  pairLeB a b = true

instance : DecidableRel pairLe := fun a b =>
  inferInstanceAs (Decidable (pairLeB a b = true))

def sortPairs (m : List (String × String)) : List (String × String) :=
  List.insertionSort pairLe m

/-- One rendered item: two-space indent, escaped key, `": "`, escaped value. -/
def entryLine (e : String × String) : List Char :=
  ' ' :: ' ' :: '"' :: (escapeList e.1.data ++ '"' :: ':' :: ' ' :: '"' ::
    (escapeList e.2.data ++ ['"']))

/-- The item block: items joined by `",\n"`. -/
def renderEntries : List (String × String) → List Char
  | [] => []
  | [e] => entryLine e
  | e :: rest => entryLine e ++ ',' :: '\n' :: renderEntries rest

/-- `json.dump(data, fp, indent=2, sort_keys=True)` output plus the trailing
newline write of `safe_write_json`. -/
def serializeIconMap (m : List (String × String)) : String :=
  match sortPairs m with
  | [] => "\x7b\x7d\n"
  | e :: es =>
    String.mk ('\x7b' :: '\n' :: (renderEntries (e :: es) ++ '\n' :: '\x7d' :: ['\n']))

/-- `safe_write_json` (lines 43-48): fully overwrite `path` with the rendered
JSON document. -/
def safe_write_json (fs : FS String) (path : String) (data : List (String × String)) :
    FS String :=
  insertFs fs path (serializeIconMap data)

/-! ## A JSON object parser (for the round-trip property) -/

def isWsChar (c : Char) : Bool :=
  c == ' ' || c == '\n' || c == '\t' || c == '\r'

def skipWs (l : List Char) : List Char :=
  l.dropWhile isWsChar

def hexVal (c : Char) : Option Nat :=
  if 48 ≤ c.toNat ∧ c.toNat ≤ 57 then some (c.toNat - 48)
  else if 97 ≤ c.toNat ∧ c.toNat ≤ 102 then some (c.toNat - 87)
  else if 65 ≤ c.toNat ∧ c.toNat ≤ 70 then some (c.toNat - 55)
  else none

def parseHex4 : List Char → Option (Nat × List Char)
  | a :: b :: c :: d :: rest =>
    match hexVal a, hexVal b, hexVal c, hexVal d with
    | some x, some y, some z, some w => some (((x * 16 + y) * 16 + z) * 16 + w, rest)
    | _, _, _, _ => none
  | _ => none

/-- Single-character JSON escapes. -/
def escTable (c : Char) : Option Char :=
  if c = '"' then some '"'
  else if c = '\\' then some '\\'
  else if c = '/' then some '/'
  else if c = 'n' then some '\n'
  else if c = 't' then some '\t'
  else if c = 'r' then some '\r'
  else if c = 'b' then some (Char.ofNat 8)
  else if c = 'f' then some (Char.ofNat 12)
  else none

/-- Parse one escape sequence (the part after a `\`), undoing the single-char
escapes and recombining `\uXXXX` surrogate pairs. -/
def parseEsc : List Char → Option (Char × List Char)
  | [] => none
  | e :: cs1 =>
    if e = 'u' then
      match parseHex4 cs1 with
      | none => none
      | some (n, cs2) =>
        if 0xd800 ≤ n ∧ n < 0xdc00 then
          match cs2 with
          | '\\' :: 'u' :: cs3 =>
            match parseHex4 cs3 with
            | none => none
            | some (n2, cs4) =>
              if 0xdc00 ≤ n2 ∧ n2 < 0xe000 then
                some (Char.ofNat (0x10000 + (n - 0xd800) * 0x400 + (n2 - 0xdc00)), cs4)
              else none
          | _ => none
        else if 0xdc00 ≤ n ∧ n < 0xe000 then none
        else some (Char.ofNat n, cs2)
    else
      match escTable e with
      | none => none
      | some d => some (d, cs1)

/-- Parse the remainder of a JSON string (after the opening quote); returns
content and rest.  The fuel bounds the number of parsed characters. -/
def parseJStr : Nat → List Char → Option (List Char × List Char)
  | 0, _ => none
  | _ + 1, [] => none
  | fuel + 1, c :: cs =>
    if c = '"' then some ([], cs)
    else if c = '\\' then
      match parseEsc cs with
      | none => none
      | some (d, cs1) => (parseJStr fuel cs1).map (fun r => (d :: r.1, r.2))
    else (parseJStr fuel cs).map (fun r => (c :: r.1, r.2))

/-- Parse the items of a non-empty JSON object body up to and including the
closing brace; insists on end of input after it. -/
def parseEntries : Nat → List Char → Option (List (String × String))
  | 0, _ => none
  | fuel + 1, cs =>
    match skipWs cs with
    | '"' :: r =>
      match parseJStr (r.length + 1) r with
      | none => none
      | some (k, r1) =>
        match skipWs r1 with
        | ':' :: r2 =>
          match skipWs r2 with
          | '"' :: r3 =>
            match parseJStr (r3.length + 1) r3 with
            | none => none
            | some (v, r4) =>
              match skipWs r4 with
              | ',' :: r5 =>
                (parseEntries fuel r5).map (fun rest => (String.mk k, String.mk v) :: rest)
              | '\x7d' :: r5 =>
                if skipWs r5 = [] then some [(String.mk k, String.mk v)] else none
              | _ => none
          | _ => none
        | _ => none
    | _ => none

/-- Parse a whole document holding one string-to-string JSON object. -/
def parseIconMap (s : String) : Option (List (String × String)) :=
  match skipWs s.data with
  | '\x7b' :: r =>
    match skipWs r with
    | '\x7d' :: r2 => if skipWs r2 = [] then some [] else none
    | _ => parseEntries (r.length + 1) r
  | _ => none

/-! ## Derived views used by the theorems -/

/-- Whether a download attempt succeeds (a function of the answer given by
the oracle alone). -/
def netOk : NetResult → Bool
  | .ok _ => true
  | _ => false

/-- The mapping entry `build_icon_map` records for one identifier, as a
function of the directory state seen when that identifier is processed. -/
def entryFor (o : Oracle) (fs : FS (List Nat)) (m : String) : String :=
  let target := resolve_icon_path m
  match lookupFs fs target with
  | some _ => "/icons/" ++ target
  | none =>
    if (download_hf_card_image o m target fs).1 then "/icons/" ++ target
    else if (fallback_provider_badge o m target fs).1 then "/icons/" ++ target
    else "/icons/default.png"

/-- Number of directory entries with a given file name. -/
def countKey {α : Type} (fs : FS α) (key : String) : Nat :=
  (fs.filter (fun p => p.1 = key)).length

/-! ## Concrete oracles for witnesses and counterexamples -/

/-- A network where exactly the card image of `Org/Name` downloads. -/
def oracleC1 : Oracle := fun url => if url = hfUrl "Org/Name" then .ok [1] else .err

/-- A network where every request fails before the body. -/
def oracleErr : Oracle := fun _ => .err

/-- A network where every request fails mid-stream after one byte. -/
def oracleMid : Oracle := fun _ => .midStream [137]

/-! # Theorems -/

/-! ### Character-level lemmas -/

theorem toNat_ofNat_valid {n : Nat} (h : n < 0xd800) : (Char.ofNat n).toNat = n := by
  have hv : n.isValidChar := Or.inl h
  rw [Char.ofNat, dif_pos hv]
  rfl

theorem isAllowedChar_iff {c : Char} :
    isAllowedChar c = true ↔
      (97 ≤ c.toNat ∧ c.toNat ≤ 122) ∨ (65 ≤ c.toNat ∧ c.toNat ≤ 90) ∨
      (48 ≤ c.toNat ∧ c.toNat ≤ 57) ∨ c.toNat = 95 ∨ c.toNat = 45 := by
  simp only [isAllowedChar, Bool.or_eq_true, Bool.and_eq_true, decide_eq_true_eq, beq_iff_eq]
  tauto

theorem isLowerAllowed_iff {c : Char} :
    isLowerAllowed c = true ↔
      (97 ≤ c.toNat ∧ c.toNat ≤ 122) ∨ (48 ≤ c.toNat ∧ c.toNat ≤ 57) ∨
      c.toNat = 95 ∨ c.toNat = 45 := by
  simp only [isLowerAllowed, Bool.or_eq_true, Bool.and_eq_true, decide_eq_true_eq, beq_iff_eq]
  tauto

theorem isAllowedChar_of_lower {c : Char} (h : isLowerAllowed c = true) :
    isAllowedChar c = true := by
  rw [isAllowedChar_iff]
  rw [isLowerAllowed_iff] at h
  omega

theorem pyLower_allowed {c : Char} (h : isAllowedChar c = true) :
    isLowerAllowed (pyLower c) = true := by
  rw [isAllowedChar_iff] at h
  unfold pyLower
  by_cases hu : 65 ≤ c.toNat ∧ c.toNat ≤ 90
  · rw [if_pos hu, isLowerAllowed_iff, toNat_ofNat_valid (by omega)]
    omega
  · rw [if_neg hu, isLowerAllowed_iff]
    omega

theorem pyLower_fix {c : Char} (h : isLowerAllowed c = true) : pyLower c = c := by
  rw [isLowerAllowed_iff] at h
  unfold pyLower
  rw [if_neg (by omega)]

theorem pyLower_ne_dash {c : Char} (hne : c ≠ '-') : pyLower c ≠ '-' := by
  unfold pyLower
  by_cases hu : 65 ≤ c.toNat ∧ c.toNat ≤ 90
  · rw [if_pos hu]
    intro heq
    have h2 := congrArg Char.toNat heq
    rw [toNat_ofNat_valid (by omega)] at h2
    have h45 : ('-').toNat = 45 := by decide
    omega
  · rw [if_neg hu]
    exact hne

/-! ### `subRuns` lemmas -/

theorem subRuns_allowed : ∀ (b : Bool) (l : List Char), ∀ c ∈ subRuns b l, isAllowedChar c = true := by
  intro b l
  induction l generalizing b with
  | nil => intro c hc; simp [subRuns] at hc
  | cons a as ih =>
    intro c hc
    unfold subRuns at hc
    by_cases ha : isAllowedChar a = true
    · rw [if_pos ha] at hc
      rcases List.mem_cons.mp hc with h | h
      · exact h ▸ ha
      · exact ih false c h
    · rw [if_neg ha] at hc
      cases b with
      | true => exact ih true c hc
      | false =>
        simp only [Bool.false_eq_true, if_false] at hc
        rcases List.mem_cons.mp hc with h | h
        · subst h; decide
        · exact ih true c h

theorem subRuns_eq_self {l : List Char} (h : ∀ c ∈ l, isAllowedChar c = true) :
    ∀ b, subRuns b l = l := by
  induction l with
  | nil => intro b; rfl
  | cons a as ih =>
    intro b
    unfold subRuns
    rw [if_pos (h a (List.mem_cons_self a as))]
    rw [ih (fun c hc => h c (List.mem_cons_of_mem a hc)) false]

/-! ### `stripDash` lemmas -/

theorem head_dropWhile_false {p : α → Bool} :
    ∀ {l : List α} {a : α}, (l.dropWhile p).head? = some a → p a = false := by
  intro l
  induction l with
  | nil => intro a h; simp [List.dropWhile] at h
  | cons x xs ih =>
    intro a h
    rw [List.dropWhile_cons] at h
    by_cases hx : p x = true
    · rw [if_pos hx] at h; exact ih h
    · rw [if_neg hx] at h
      simp only [List.head?_cons, Option.some_inj] at h
      subst h
      exact Bool.eq_false_iff.mpr hx

theorem dropWhile_eq_self {p : α → Bool} {l : List α}
    (h : ∀ a, l.head? = some a → p a = false) : l.dropWhile p = l := by
  cases l with
  | nil => rfl
  | cons x xs =>
    rw [List.dropWhile_cons, if_neg]
    simp [h x rfl]

theorem mem_stripDash {l : List Char} {c : Char} (h : c ∈ stripDash l) : c ∈ l := by
  unfold stripDash at h
  rw [List.mem_reverse] at h
  have h1 := (List.dropWhile_suffix (l := (l.dropWhile (fun c => c == '-')).reverse)
    (fun c => c == '-')).subset h
  rw [List.mem_reverse] at h1
  exact (List.dropWhile_suffix (fun c => c == '-')).subset h1

theorem head?_of_front {l₁ l₂ : List α} (h : l₁ <+: l₂) {a : α} (ha : l₁.head? = some a) :
    l₂.head? = some a := by
  obtain ⟨t, rfl⟩ := h
  cases l₁ with
  | nil => simp at ha
  | cons x xs => simpa using ha

theorem stripDash_head {l : List Char} {a : Char} (h : (stripDash l).head? = some a) :
    (a == '-') = false := by
  have hpre : stripDash l <+: l.dropWhile (fun c => c == '-') := by
    unfold stripDash
    have hsuf := List.dropWhile_suffix (l := (l.dropWhile (fun c => c == '-')).reverse)
      (fun c => c == '-')
    have h2 := List.reverse_prefix.mpr hsuf
    rwa [List.reverse_reverse] at h2
  exact head_dropWhile_false (p := fun c => c == '-') (head?_of_front hpre h)

theorem stripDash_getLast {l : List Char} {a : Char} (h : (stripDash l).getLast? = some a) :
    (a == '-') = false := by
  unfold stripDash at h
  rw [List.getLast?_reverse] at h
  exact head_dropWhile_false (p := fun c => c == '-') h

theorem stripDash_eq_self {l : List Char}
    (hh : ∀ a, l.head? = some a → (a == '-') = false)
    (hl : ∀ a, l.getLast? = some a → (a == '-') = false) : stripDash l = l := by
  unfold stripDash
  rw [dropWhile_eq_self hh]
  rw [dropWhile_eq_self (by intro a ha; rw [List.head?_reverse] at ha; exact hl a ha)]
  exact List.reverse_reverse l

/-! ### The slugify pipeline -/

theorem mem_of_head? {l : List α} {a : α} (h : l.head? = some a) : a ∈ l := by
  cases l with
  | nil => simp at h
  | cons x xs =>
    simp only [List.head?_cons, Option.some_inj] at h
    exact h ▸ List.mem_cons_self x xs

theorem mem_of_getLast? {l : List α} {a : α} (h : l.getLast? = some a) : a ∈ l := by
  have h2 : l.reverse.head? = some a := by rw [List.head?_reverse]; exact h
  exact List.mem_reverse.mp (mem_of_head? h2)

theorem map_id_of_fix {f : α → α} : ∀ {l : List α}, (∀ c ∈ l, f c = c) → l.map f = l := by
  intro l
  induction l with
  | nil => intro _; rfl
  | cons x xs ih =>
    intro h
    rw [List.map_cons, h x (List.mem_cons_self x xs),
      ih (fun c hc => h c (List.mem_cons_of_mem x hc))]

theorem slugClean_all_lower {l : List Char} : ∀ c ∈ slugClean l, isLowerAllowed c = true := by
  intro c hc
  obtain ⟨a, ha, rfl⟩ := List.mem_map.mp hc
  exact pyLower_allowed (subRuns_allowed false l a (mem_stripDash ha))

theorem slugClean_head {l : List Char} {c : Char} (h : (slugClean l).head? = some c) :
    c ≠ '-' := by
  unfold slugClean at h
  rw [List.head?_map] at h
  cases ha : (stripDash (subRuns false l)).head? with
  | none => rw [ha] at h; exact Option.noConfusion h
  | some a =>
    rw [ha] at h
    simp only [Option.map_some', Option.some_inj] at h
    have hne : a ≠ '-' := by
      have := stripDash_head ha
      exact fun he => by simp [he] at this
    exact h ▸ pyLower_ne_dash hne

theorem slugClean_getLast {l : List Char} {c : Char} (h : (slugClean l).getLast? = some c) :
    c ≠ '-' := by
  unfold slugClean at h
  rw [List.getLast?_map] at h
  cases ha : (stripDash (subRuns false l)).getLast? with
  | none => rw [ha] at h; exact Option.noConfusion h
  | some a =>
    rw [ha] at h
    simp only [Option.map_some', Option.some_inj] at h
    have hne : a ≠ '-' := by
      have := stripDash_getLast ha
      exact fun he => by simp [he] at this
    exact h ▸ pyLower_ne_dash hne

theorem slugify_eq (s : String) :
    slugify s = if slugClean s.data = [] then "unknown" else String.mk (slugClean s.data) := rfl

/-- Running the cleaning pipeline on an already-clean list is the identity. -/
theorem slugClean_fix {l : List Char} (hlow : ∀ c ∈ l, isLowerAllowed c = true)
    (hh : ∀ a, l.head? = some a → a ≠ '-') (hl : ∀ a, l.getLast? = some a → a ≠ '-') :
    slugClean l = l := by
  unfold slugClean
  rw [subRuns_eq_self (fun c hc => isAllowedChar_of_lower (hlow c hc)) false]
  rw [stripDash_eq_self
    (fun a ha => by have := hh a ha; simp [this])
    (fun a ha => by have := hl a ha; simp [this])]
  exact map_id_of_fix (fun c hc => pyLower_fix (hlow c hc))

theorem slugify_idem (s : String) : slugify (slugify s) = slugify s := by
  by_cases hp : slugClean s.data = []
  · rw [slugify_eq s, if_pos hp]
    decide
  · rw [slugify_eq s, if_neg hp]
    rw [slugify_eq (String.mk (slugClean s.data))]
    have hdata : (String.mk (slugClean s.data)).data = slugClean s.data := rfl
    rw [hdata, slugClean_fix slugClean_all_lower
      (fun a ha => slugClean_head ha) (fun a ha => slugClean_getLast ha), if_neg hp]

/-- **C4**: `slugify` is a total pure function; for every string `s` the result is
non-empty, consists only of characters in `[a-z0-9_-]`, and is a fixed point of
`slugify`; and `slugify "" = "unknown"`. -/
theorem C4_normalize_total_idempotent :
    (∀ s : String, (slugify s).data.isEmpty = false
      ∧ (slugify s).data.all isLowerAllowed = true
      ∧ slugify (slugify s) = slugify s)
    ∧ slugify "" = "unknown" := by
  refine ⟨fun s => ⟨?_, ?_, slugify_idem s⟩, by decide⟩
  · rw [slugify_eq s]
    by_cases hp : slugClean s.data = []
    · rw [if_pos hp]; decide
    · rw [if_neg hp]
      cases hc : slugClean s.data with
      | nil => exact absurd hc hp
      | cons x xs => rfl
  · rw [slugify_eq s]
    by_cases hp : slugClean s.data = []
    · rw [if_pos hp]; decide
    · rw [if_neg hp]
      rw [List.all_eq_true]
      intro c hc
      exact slugClean_all_lower c hc

/-! ### Filesystem lemmas -/

theorem lookupFs_insertFs_self {α : Type} (fs : FS α) (k : String) (v : α) :
    lookupFs (insertFs fs k v) k = some v := by
  induction fs with
  | nil => simp [insertFs, lookupFs]
  | cons p rest ih =>
    obtain ⟨k', w⟩ := p
    unfold insertFs
    by_cases h : k' = k
    · rw [if_pos h]
      unfold lookupFs
      rw [if_pos h]
    · rw [if_neg h]
      unfold lookupFs
      rw [if_neg h]
      exact ih

theorem lookupFs_insertFs_ne {α : Type} (fs : FS α) {p k : String} (v : α) (h : p ≠ k) :
    lookupFs (insertFs fs k v) p = lookupFs fs p := by
  induction fs with
  | nil =>
    unfold insertFs lookupFs
    rw [if_neg (fun he => h he.symm)]
    rfl
  | cons q rest ih =>
    obtain ⟨k', w⟩ := q
    unfold insertFs
    by_cases hk : k' = k
    · rw [if_pos hk]
      unfold lookupFs
      rw [if_neg (by rw [hk]; exact fun he => h he.symm), if_neg (by rw [hk]; exact fun he => h he.symm)]
    · rw [if_neg hk]
      unfold lookupFs
      by_cases hp : k' = p
      · rw [if_pos hp, if_pos hp]
      · rw [if_neg hp, if_neg hp]
        exact ih

/-! ### Strategy lemmas -/

theorem download_file_fst (o : Oracle) (u d : String) (fs : FS (List Nat)) :
    (download_file o u d fs).1 = netOk (o u) := by
  unfold download_file
  cases o u <;> rfl

theorem download_file_log (o : Oracle) (u d : String) (fs : FS (List Nat)) :
    (download_file o u d fs).2.2 = [u] := by
  unfold download_file
  cases o u <;> rfl

theorem download_file_fs_other (o : Oracle) (u d : String) (fs : FS (List Nat)) {p : String}
    (h : p ≠ d) : lookupFs (download_file o u d fs).2.1 p = lookupFs fs p := by
  unfold download_file
  cases o u with
  | err => rfl
  | midStream w => exact lookupFs_insertFs_ne fs w h
  | ok b => exact lookupFs_insertFs_ne fs b h

theorem hf_fst_fs (o : Oracle) (m d : String) (fs fs' : FS (List Nat)) :
    (download_hf_card_image o m d fs).1 = (download_hf_card_image o m d fs').1 := by
  unfold download_hf_card_image
  by_cases h : (splitSlash m.data).length < 2
  · rw [if_pos h, if_pos h]
  · rw [if_neg h, if_neg h, download_file_fst, download_file_fst]

theorem hf_fs_other (o : Oracle) (m d : String) (fs : FS (List Nat)) {p : String} (h : p ≠ d) :
    lookupFs (download_hf_card_image o m d fs).2.1 p = lookupFs fs p := by
  unfold download_hf_card_image
  by_cases hlt : (splitSlash m.data).length < 2
  · rw [if_pos hlt]
  · rw [if_neg hlt]
    exact download_file_fs_other o _ d fs h

theorem badgeLoop_fst_fs (o : Oracle) (m d : String) (assets : List (String × String))
    (fs fs' : FS (List Nat)) :
    (badgeLoop o m d fs assets).1 = (badgeLoop o m d fs' assets).1 := by
  induction assets with
  | nil => rfl
  | cons a rest ih =>
    obtain ⟨token, badge_url⟩ := a
    unfold badgeLoop
    by_cases h : containsSub token.data (m.data.map pyLower) = true
    · rw [if_pos h, if_pos h, download_file_fst, download_file_fst]
    · rw [if_neg h, if_neg h]
      exact ih

theorem badgeLoop_fs_other (o : Oracle) (m d : String) (assets : List (String × String))
    (fs : FS (List Nat)) {p : String} (h : p ≠ d) :
    lookupFs (badgeLoop o m d fs assets).2.1 p = lookupFs fs p := by
  induction assets with
  | nil => rfl
  | cons a rest ih =>
    obtain ⟨token, badge_url⟩ := a
    unfold badgeLoop
    by_cases hc : containsSub token.data (m.data.map pyLower) = true
    · rw [if_pos hc]
      exact download_file_fs_other o _ d fs h
    · rw [if_neg hc]
      exact ih

theorem badge_fst_fs (o : Oracle) (m d : String) (fs fs' : FS (List Nat)) :
    (fallback_provider_badge o m d fs).1 = (fallback_provider_badge o m d fs').1 :=
  badgeLoop_fst_fs o m d provider_assets fs fs'

theorem badge_fs_other (o : Oracle) (m d : String) (fs : FS (List Nat)) {p : String}
    (h : p ≠ d) : lookupFs (fallback_provider_badge o m d fs).2.1 p = lookupFs fs p :=
  badgeLoop_fs_other o m d provider_assets fs h

/-! ### Builder step lemmas -/

theorem resolve_icon_path_inj {m m' : String}
    (h : resolve_icon_path m = resolve_icon_path m') : slugify m = slugify m' := by
  unfold resolve_icon_path at h
  have h2 := congrArg String.data h
  simp only [String.data_append] at h2
  exact String.ext ((List.append_left_inj _).mp h2)

theorem step_map (o : Oracle) (st : BuildSt) (m : String) :
    (build_icon_map_step o st m).map = insertMap st.map m (entryFor o st.fs m) := by
  cases hl : lookupFs st.fs (resolve_icon_path m) with
  | some c => simp [build_icon_map_step, entryFor, hl]
  | none =>
    rcases h1 : download_hf_card_image o m (resolve_icon_path m) st.fs with ⟨ok₁, fs₁, log₁⟩
    cases ok₁ with
    | true => simp [build_icon_map_step, entryFor, hl, h1]
    | false =>
      rcases h2 : fallback_provider_badge o m (resolve_icon_path m) fs₁ with ⟨ok₂, fs₂, log₂⟩
      have hflag : (fallback_provider_badge o m (resolve_icon_path m) st.fs).1 = ok₂ := by
        rw [badge_fst_fs o m (resolve_icon_path m) st.fs fs₁, h2]
      cases ok₂ with
      | true => simp [build_icon_map_step, entryFor, hl, h1, h2, hflag]
      | false => simp [build_icon_map_step, entryFor, hl, h1, h2, hflag]

theorem step_fs_other (o : Oracle) (st : BuildSt) (m : String) {p : String}
    (h : p ≠ resolve_icon_path m) :
    lookupFs (build_icon_map_step o st m).fs p = lookupFs st.fs p := by
  cases hl : lookupFs st.fs (resolve_icon_path m) with
  | some c => simp [build_icon_map_step, hl]
  | none =>
    rcases h1 : download_hf_card_image o m (resolve_icon_path m) st.fs with ⟨ok₁, fs₁, log₁⟩
    have hfs₁ : lookupFs fs₁ p = lookupFs st.fs p := by
      have h3 := hf_fs_other o m (resolve_icon_path m) st.fs h
      rw [h1] at h3
      exact h3
    cases ok₁ with
    | true => simp only [build_icon_map_step, hl, h1]; exact hfs₁
    | false =>
      rcases h2 : fallback_provider_badge o m (resolve_icon_path m) fs₁ with ⟨ok₂, fs₂, log₂⟩
      have hfs₂ : lookupFs fs₂ p = lookupFs fs₁ p := by
        have h3 := badge_fs_other o m (resolve_icon_path m) fs₁ h
        rw [h2] at h3
        exact h3
      cases ok₂ with
      | true => simp only [build_icon_map_step, hl, h1, h2]; exact hfs₂.trans hfs₁
      | false => simp only [build_icon_map_step, hl, h1, h2]; exact hfs₂.trans hfs₁

theorem entryFor_congr (o : Oracle) (fs fs' : FS (List Nat)) (m : String)
    (h : lookupFs fs (resolve_icon_path m) = lookupFs fs' (resolve_icon_path m)) :
    entryFor o fs m = entryFor o fs' m := by
  cases hl : lookupFs fs' (resolve_icon_path m) with
  | some c =>
    have hl2 : lookupFs fs (resolve_icon_path m) = some c := h.trans hl
    simp [entryFor, hl, hl2]
  | none =>
    have hl2 : lookupFs fs (resolve_icon_path m) = none := h.trans hl
    simp [entryFor, hl, hl2, hf_fst_fs o m (resolve_icon_path m) fs fs',
      badge_fst_fs o m (resolve_icon_path m) fs fs']

/-- Processing a list of identifiers whose slugs are pairwise distinct: each
final entry of each identifier is determined by the directory as it was at the start
of the fold. -/
theorem build_fold_lookup (o : Oracle) :
    ∀ (models : List String) (st : BuildSt) (fs0 : FS (List Nat)),
      (models.map slugify).Nodup →
      (∀ m ∈ models, lookupFs st.fs (resolve_icon_path m) = lookupFs fs0 (resolve_icon_path m)) →
      ∀ k, lookupMap (models.foldl (build_icon_map_step o) st).map k
        = if k ∈ models then some (entryFor o fs0 k) else lookupMap st.map k := by
  intro models
  induction models with
  | nil =>
    intro st fs0 _ _ k
    simp
  | cons m ms ih =>
    intro st fs0 hnd hagree k
    rw [List.foldl_cons]
    have hnd2 : (slugify m :: ms.map slugify).Nodup := by simpa using hnd
    have hnotin : slugify m ∉ ms.map slugify := (List.nodup_cons.mp hnd2).1
    have hagree2 : ∀ m' ∈ ms, lookupFs (build_icon_map_step o st m).fs (resolve_icon_path m')
        = lookupFs fs0 (resolve_icon_path m') := by
      intro m' hm'
      have hne : resolve_icon_path m' ≠ resolve_icon_path m := by
        intro he
        apply hnotin
        rw [← resolve_icon_path_inj he]
        exact List.mem_map_of_mem slugify hm'
      rw [step_fs_other o st m hne]
      exact hagree m' (List.mem_cons_of_mem m hm')
    rw [ih (build_icon_map_step o st m) fs0 (List.nodup_cons.mp hnd2).2 hagree2 k]
    by_cases hk : k ∈ ms
    · rw [if_pos hk, if_pos (List.mem_cons_of_mem m hk)]
    · rw [if_neg hk, step_map]
      by_cases hkm : k = m
      · subst hkm
        rw [if_pos (List.mem_cons_self k ms)]
        unfold lookupMap insertMap
        rw [lookupFs_insertFs_self]
        rw [entryFor_congr o st.fs fs0 k (hagree k (List.mem_cons_self k ms))]
      · rw [if_neg (by simp [List.mem_cons, hkm, hk])]
        unfold lookupMap insertMap
        exact lookupFs_insertFs_ne st.map _ hkm

/-- A file existing at the destination short-circuits the loop body of
`build_icon_map`: only the mapping entry is added. -/
theorem step_of_existing (o : Oracle) (st : BuildSt) (m : String)
    (c : List Nat) (h : lookupFs st.fs (resolve_icon_path m) = some c) :
    build_icon_map_step o st m
      = { st with map := insertMap st.map m ("/icons/" ++ slugify m ++ ".png") } := by
  have hurl : "/icons/" ++ slugify m ++ ".png" = "/icons/" ++ resolve_icon_path m := by
    unfold resolve_icon_path
    rw [String.append_assoc]
  rw [hurl]
  simp [build_icon_map_step, h]

/-- The loop body of `build_icon_map` never removes or overwrites an existing
file (downloads only happen when the destination does not exist yet). -/
theorem step_preserves_file (o : Oracle) (st : BuildSt) (m : String) {p : String}
    {b : List Nat} (h : lookupFs st.fs p = some b) :
    lookupFs (build_icon_map_step o st m).fs p = some b := by
  by_cases hp : p = resolve_icon_path m
  · subst hp
    simp [build_icon_map_step, h]
  · rw [step_fs_other o st m hp]
    exact h

theorem fold_preserves_file (o : Oracle) :
    ∀ (models : List String) (st : BuildSt) {p : String} {b : List Nat},
      lookupFs st.fs p = some b →
      lookupFs (models.foldl (build_icon_map_step o) st).fs p = some b := by
  intro models
  induction models with
  | nil => intro st p b h; exact h
  | cons m ms ih =>
    intro st p b h
    rw [List.foldl_cons]
    exact ih (build_icon_map_step o st m) (step_preserves_file o st m h)

/-- Identifiers never processed keep their mapping entry through the fold. -/
theorem fold_map_not_mem (o : Oracle) :
    ∀ (models : List String) (st : BuildSt) {k : String}, k ∉ models →
      lookupMap (models.foldl (build_icon_map_step o) st).map k = lookupMap st.map k := by
  intro models
  induction models with
  | nil => intro st k _; rfl
  | cons m ms ih =>
    intro st k hk
    rw [List.foldl_cons, ih (build_icon_map_step o st m) (fun h => hk (List.mem_cons_of_mem m h)),
      step_map]
    unfold lookupMap insertMap
    exact lookupFs_insertFs_ne st.map _ (fun h => hk (h ▸ List.mem_cons_self m ms))

/-- `ensure_default_icon` always leaves a `default.png`. -/
theorem ensure_default_present (fs : FS (List Nat)) :
    ∃ b, lookupFs (ensure_default_icon fs).1 "default.png" = some b := by
  cases h : lookupFs fs "default.png" with
  | some b =>
    refine ⟨b, ?_⟩
    simp [ensure_default_icon, h]
  | none =>
    refine ⟨transparent_png, ?_⟩
    simp [ensure_default_icon, h, lookupFs_insertFs_self]

/-- Through a fold that keeps `default.png` on disk, an identifier whose slug
is `default` is always mapped to the shared default asset. -/
theorem fold_maps_default_slug (o : Oracle) :
    ∀ (models : List String) (st : BuildSt) {m : String} {b : List Nat},
      slugify m = "default" → lookupFs st.fs "default.png" = some b → m ∈ models →
      lookupMap (models.foldl (build_icon_map_step o) st).map m = some "/icons/default.png" := by
  intro models
  induction models with
  | nil => intro st m b _ _ hm; exact absurd hm (List.not_mem_nil m)
  | cons m' ms ih =>
    intro st m b hslug hdef hm
    rw [List.foldl_cons]
    have hdef2 : lookupFs (build_icon_map_step o st m').fs "default.png" = some b :=
      step_preserves_file o st m' hdef
    by_cases hms : m ∈ ms
    · exact ih (build_icon_map_step o st m') hslug hdef2 hms
    · have hmm : m = m' := by
        rcases List.mem_cons.mp hm with h | h
        · exact h
        · exact absurd h hms
      subst hmm
      have hrp : resolve_icon_path m = "default.png" := by
        unfold resolve_icon_path
        rw [hslug]
        decide
      rw [fold_map_not_mem o ms (build_icon_map_step o st m) hms,
        step_of_existing o st m b (by rw [hrp]; exact hdef)]
      have hv : "/icons/" ++ slugify m ++ ".png" = "/icons/default.png" := by
        rw [hslug]
        decide
      rw [hv]
      unfold lookupMap insertMap
      exact lookupFs_insertFs_self st.map m _

/-! ### `countKey` lemmas -/

theorem countKey_zero_of_lookup_none {α : Type} {fs : FS α} {key : String}
    (h : lookupFs fs key = none) : countKey fs key = 0 := by
  induction fs with
  | nil => rfl
  | cons p rest ih =>
    obtain ⟨k, v⟩ := p
    unfold lookupFs at h
    by_cases hk : k = key
    · rw [if_pos hk] at h
      exact Option.noConfusion h
    · rw [if_neg hk] at h
      unfold countKey at ih ⊢
      rw [List.filter_cons, if_neg (by simpa using hk)]
      exact ih h

theorem countKey_insert_of_lookup_none {α : Type} {fs : FS α} {key : String} (v : α)
    (h : lookupFs fs key = none) : countKey (insertFs fs key v) key = 1 := by
  induction fs with
  | nil => simp [insertFs, countKey, List.filter_cons]
  | cons p rest ih =>
    obtain ⟨k, w⟩ := p
    unfold lookupFs at h
    by_cases hk : k = key
    · rw [if_pos hk] at h
      exact Option.noConfusion h
    · rw [if_neg hk] at h
      unfold insertFs countKey
      rw [if_neg hk, List.filter_cons, if_neg (by simpa using hk)]
      exact ih h

theorem countKey_zero_of_not_mem {α : Type} {fs : FS α} {key : String}
    (h : key ∉ fs.map Prod.fst) : countKey fs key = 0 := by
  induction fs with
  | nil => rfl
  | cons p rest ih =>
    obtain ⟨k, v⟩ := p
    have hk : k ≠ key := by
      intro he
      exact h (he ▸ List.mem_cons_self k (rest.map Prod.fst))
    unfold countKey at ih ⊢
    rw [List.filter_cons, if_neg (by simpa using hk)]
    exact ih (fun hmem => h (List.mem_cons_of_mem _ hmem))

theorem countKey_one_of_nodup {α : Type} {fs : FS α} {key : String} {b : α}
    (hnd : (fs.map Prod.fst).Nodup) (h : lookupFs fs key = some b) :
    countKey fs key = 1 := by
  induction fs with
  | nil => exact Option.noConfusion h
  | cons p rest ih =>
    obtain ⟨k, v⟩ := p
    rw [List.map_cons, List.nodup_cons] at hnd
    unfold lookupFs at h
    by_cases hk : k = key
    · rw [if_pos hk] at h
      unfold countKey
      rw [List.filter_cons, if_pos (by simpa using hk)]
      have hz : countKey rest key = 0 :=
        countKey_zero_of_not_mem (hk ▸ hnd.1)
      unfold countKey at hz
      simp [hz]
    · rw [if_neg hk] at h
      unfold countKey at ih ⊢
      rw [List.filter_cons, if_neg (by simpa using hk)]
      exact ih hnd.2 h

/-! ### Claim C1: order (in)dependence of `build_icon_map` -/

/-- **C1 counterexample**: with a fixed empty directory and a fixed network
(only the card image of `Org/Name` downloads), the two identifiers
`"Org/Name"` and `"org name"` both normalize to slug `org-name`, and the map
content depends on the iteration order: `"org name"` is mapped to the shared
slug file in one order and to the default asset in the other.  This refutes
the claim that the map content never depends on iteration order. -/
theorem C1_counterexample :
    (["Org/Name", "org name"] : List String).Perm ["org name", "Org/Name"]
    ∧ lookupMap (build_icon_map oracleC1 ["Org/Name", "org name"] []).map "org name"
        ≠ lookupMap (build_icon_map oracleC1 ["org name", "Org/Name"] []).map "org name" :=
  ⟨List.Perm.swap "org name" "Org/Name" [], by decide⟩

/-- **C1 (amended)**: for a fixed directory and network oracle, when the
identifiers normalize to pairwise distinct slugs, the content of the map
returned by `build_icon_map` is independent of the iteration order. -/
theorem C1_order_independent (o : Oracle) (fs : FS (List Nat)) (l₁ l₂ : List String)
    (hperm : l₁.Perm l₂) (hnd : (l₁.map slugify).Nodup) (k : String) :
    lookupMap (build_icon_map o l₁ fs).map k = lookupMap (build_icon_map o l₂ fs).map k := by
  have hnd₂ : (l₂.map slugify).Nodup := (hperm.map slugify).nodup_iff.mp hnd
  unfold build_icon_map
  rw [build_fold_lookup o l₁ ⟨fs, [], []⟩ fs hnd (fun m _ => rfl) k,
    build_fold_lookup o l₂ ⟨fs, [], []⟩ fs hnd₂ (fun m _ => rfl) k]
  by_cases hk : k ∈ l₁
  · rw [if_pos hk, if_pos (hperm.mem_iff.mp hk)]
  · rw [if_neg hk, if_neg (fun hh => hk (hperm.mem_iff.mpr hh))]

/-- **C1 witness**: the amended order-independence theorem applied to two
identifiers with distinct slugs. -/
theorem C1_order_independent_witness :
    lookupMap (build_icon_map oracleC1 ["Org/Name", "claude-x"] []).map "claude-x"
      = lookupMap (build_icon_map oracleC1 ["claude-x", "Org/Name"] []).map "claude-x" :=
  C1_order_independent oracleC1 [] ["Org/Name", "claude-x"] ["claude-x", "Org/Name"]
    (List.Perm.swap "claude-x" "Org/Name" []) (by decide) "claude-x"

/-! ### Claim C2: the provider-badge strategy -/

/-- **C2 counterexample**: for the identifier `"my-gpt-4"`, no provider token
is a prefix of the (lower-cased) identifier, yet `fallback_provider_badge`
performs a network request (for the `gpt-` badge URL): the code matches
tokens by substring containment, not by prefix. -/
theorem C2_counterexample :
    (provider_assets.all
      (fun p => !(p.1.data.isPrefixOf ("my-gpt-4".data.map pyLower)))) = true
    ∧ (fallback_provider_badge oracleErr "my-gpt-4" "t.png" []).2.2
        = ["https://raw.githubusercontent.com/openai/openai-python/master/assets/openai.png"] := by
  constructor
  · decide
  · decide

/-- **C2 (amended)**: `fallback_provider_badge` matches the lower-cased
identifier against the static ordered token mapping by *substring
containment*; the first token (in declaration order) contained in the
identifier wins and its badge URL is fetched with a single GET; if no token is
contained, the strategy fails immediately with no network request. -/
theorem C2_badge_first_substring_token (o : Oracle) (m d : String) (fs : FS (List Nat)) :
    match provider_assets.find? (fun p => containsSub p.1.data (m.data.map pyLower)) with
    | none => fallback_provider_badge o m d fs = (false, fs, [])
    | some (_, u) => fallback_provider_badge o m d fs = download_file o u d fs := by
  have general : ∀ assets : List (String × String),
      match assets.find? (fun p => containsSub p.1.data (m.data.map pyLower)) with
      | none => badgeLoop o m d fs assets = (false, fs, [])
      | some (_, u) => badgeLoop o m d fs assets = download_file o u d fs := by
    intro assets
    induction assets with
    | nil => simp [badgeLoop]
    | cons a rest ih =>
      obtain ⟨token, url⟩ := a
      by_cases hc : containsSub token.data (m.data.map pyLower) = true
      · rw [List.find?_cons_of_pos _ (by simpa using hc)]
        simp [badgeLoop, hc]
      · rw [List.find?_cons_of_neg _ (by simpa using hc)]
        have hred : badgeLoop o m d fs ((token, url) :: rest) = badgeLoop o m d fs rest := by
          simp [badgeLoop, hc]
        cases hf : rest.find? (fun p => containsSub p.1.data (m.data.map pyLower)) with
        | none =>
          have ih2 := ih
          rw [hf] at ih2
          rw [hred]
          exact ih2
        | some pr =>
          obtain ⟨t, u⟩ := pr
          have ih2 := ih
          rw [hf] at ih2
          rw [hred]
          exact ih2
  exact general provider_assets

/-! ### Claim C3: `download_file` failure effects -/

/-- **C3** (code bug): a download whose body stream fails after one chunk
returns `False` yet leaves a partial file at the destination, where no file
existed before — `download_file` opens the destination before consuming the
stream and never removes it on failure. -/
theorem C3_midstream_truncated_file :
    lookupFs ([] : FS (List Nat)) "org-model.png" = none
    ∧ (download_file oracleMid "https://huggingface.co/org/model/raw/main/card.png"
        "org-model.png" []).1 = false
    ∧ lookupFs (download_file oracleMid "https://huggingface.co/org/model/raw/main/card.png"
        "org-model.png" []).2.1 "org-model.png" = some [137] := by
  refine ⟨rfl, rfl, ?_⟩
  decide

/-! ### Claim C5: all strategies fail -/

/-- **C5** (code bug): with no pre-existing file at the destination and both
strategies failing (the card-image GET dies mid-stream, no provider token
matches), the recorded entry is indeed `/icons/default.png`, but — contrary to
the claim — a partial per-identifier file *is* left at the destination path. -/
theorem C5_default_entry_but_truncated_file :
    lookupFs ([] : FS (List Nat)) (resolve_icon_path "org/model") = none
    ∧ (download_hf_card_image oracleMid "org/model" (resolve_icon_path "org/model") []).1 = false
    ∧ (fallback_provider_badge oracleMid "org/model" (resolve_icon_path "org/model") []).1 = false
    ∧ (build_icon_map_step oracleMid ⟨[], [], []⟩ "org/model").map
        = [("org/model", "/icons/default.png")]
    ∧ lookupFs (build_icon_map_step oracleMid ⟨[], [], []⟩ "org/model").fs
        (resolve_icon_path "org/model") = some [137] := by
  refine ⟨?_, ?_, ?_, ?_, ?_⟩ <;> decide

/-! ### Claim C6: existing destination file short-circuits acquisition -/

/-- **C6**: when a file already exists at the destination of an identifier, the
`build_icon_map` loop body records
`identifier ↦ "/icons/" ++ slugify identifier ++ ".png"`, leaves the directory
untouched, and performs no network request (the request log is unchanged). -/
theorem C6_existing_file_skips_acquisition (o : Oracle) (st : BuildSt) (m : String)
    (c : List Nat) (h : lookupFs st.fs (resolve_icon_path m) = some c) :
    build_icon_map_step o st m
      = { st with map := insertMap st.map m ("/icons/" ++ slugify m ++ ".png") } :=
  step_of_existing o st m c h

/-- **C6 witness**: a directory already containing `foo.png` and the
identifier `"Foo"` (slug `foo`): the step only records the entry. -/
theorem C6_existing_file_witness :
    build_icon_map_step oracleErr ⟨[("foo.png", [0])], [], []⟩ "Foo"
      = ⟨[("foo.png", [0])], [], [("Foo", "/icons/foo.png")]⟩ := by
  rw [C6_existing_file_skips_acquisition oracleErr ⟨[("foo.png", [0])], [], []⟩ "Foo" [0]
    (by decide)]
  decide

/-! ### Claim C7: the card-image strategy -/

/-- **C7**: `download_hf_card_image` fails immediately with no network request
when the identifier has fewer than two `/`-separated segments; otherwise it
performs a single GET for the URL built from exactly the first two segments,
and a failing GET yields failure (with that one URL as the only request). -/
theorem C7_card_image_strategy (o : Oracle) (m d : String) (fs : FS (List Nat)) :
    ((splitSlash m.data).length < 2 → download_hf_card_image o m d fs = (false, fs, []))
    ∧ (2 ≤ (splitSlash m.data).length →
        (download_hf_card_image o m d fs).2.2 = [hfUrl m]
        ∧ (o (hfUrl m) = .err → download_hf_card_image o m d fs = (false, fs, [hfUrl m]))) := by
  constructor
  · intro h
    simp [download_hf_card_image, h]
  · intro h
    have hn : ¬ (splitSlash m.data).length < 2 := by omega
    refine ⟨?_, ?_⟩
    · simp [download_hf_card_image, hn, download_file_log]
    · intro he
      simp [download_hf_card_image, hn, download_file, he]

/-- **C7 witness**: both branches at concrete identifiers: `"solo"` (one
segment, no request) and `"org/name"` (two segments, one failing request). -/
theorem C7_card_image_witness :
    download_hf_card_image oracleErr "solo" "d.png" [] = (false, [], [])
    ∧ download_hf_card_image oracleErr "org/name" "d.png" [] = (false, [], [hfUrl "org/name"]) :=
  ⟨(C7_card_image_strategy oracleErr "solo" "d.png" []).1 (by decide),
   ((C7_card_image_strategy oracleErr "org/name" "d.png" []).2 (by decide)).2 rfl⟩

/-! ### Claim C9: the default-icon provisioner -/

/-- **C9**: `ensure_default_icon` is idempotent, never overwrites an existing
`default.png` (a user-supplied default survives), always leaves a
`default.png` present, never performs a network request, and — on a well-formed
directory — leaves exactly one `default.png` entry. -/
theorem C9_ensure_default_idempotent (fs : FS (List Nat)) :
    (ensure_default_icon (ensure_default_icon fs).1).1 = (ensure_default_icon fs).1
    ∧ (∀ b, lookupFs fs "default.png" = some b → (ensure_default_icon fs).1 = fs)
    ∧ (lookupFs (ensure_default_icon fs).1 "default.png").isSome = true
    ∧ (ensure_default_icon fs).2 = []
    ∧ ((fs.map Prod.fst).Nodup → countKey (ensure_default_icon fs).1 "default.png" = 1) := by
  refine ⟨?_, ?_, ?_, ?_, ?_⟩
  · obtain ⟨b, hb⟩ := ensure_default_present fs
    set X := (ensure_default_icon fs).1 with hX
    simp [ensure_default_icon, hb]
  · intro b hb
    simp [ensure_default_icon, hb]
  · obtain ⟨b, hb⟩ := ensure_default_present fs
    rw [hb]
    rfl
  · cases h : lookupFs fs "default.png" with
    | some b => simp [ensure_default_icon, h]
    | none => simp [ensure_default_icon, h]
  · intro hnd
    cases h : lookupFs fs "default.png" with
    | some b =>
      have hfs : (ensure_default_icon fs).1 = fs := by simp [ensure_default_icon, h]
      rw [hfs]
      exact countKey_one_of_nodup hnd h
    | none =>
      have hfs : (ensure_default_icon fs).1 = insertFs fs "default.png" transparent_png := by
        simp [ensure_default_icon, h]
      rw [hfs]
      exact countKey_insert_of_lookup_none transparent_png h

/-- **C9 witness**: a user-supplied `default.png` is untouched, and on an empty
directory exactly one `default.png` is produced. -/
theorem C9_ensure_default_witness :
    (ensure_default_icon [("default.png", [0])]).1 = [("default.png", [0])]
    ∧ countKey (ensure_default_icon ([] : FS (List Nat))).1 "default.png" = 1 :=
  ⟨(C9_ensure_default_idempotent [("default.png", [0])]).2.1 [0] rfl,
   (C9_ensure_default_idempotent []).2.2.2.2 List.nodup_nil⟩

/-! ### Claim C10: identifiers whose slug is `default` -/

/-- **C10**: because `main` provisions `default.png` before building the map,
an identifier normalizing to the slug `default` always finds its destination
occupied: it is always mapped to `/icons/default.png`, and (run on its own) it
triggers no acquisition — no network request and no directory change beyond
the provisioning itself. -/
theorem C10_default_slug_maps_to_default (o : Oracle) (fs : FS (List Nat))
    (models : List String) (m : String) (hslug : slugify m = "default")
    (hm : m ∈ models) :
    lookupMap (run_pipeline o models fs).map m = some "/icons/default.png"
    ∧ run_pipeline o [m] fs
        = ⟨(ensure_default_icon fs).1, [], [(m, "/icons/default.png")]⟩ := by
  obtain ⟨b, hb⟩ := ensure_default_present fs
  constructor
  · exact fold_maps_default_slug o models ⟨(ensure_default_icon fs).1, [], []⟩ hslug hb hm
  · have hrp : resolve_icon_path m = "default.png" := by
      unfold resolve_icon_path
      rw [hslug]
      decide
    unfold run_pipeline build_icon_map
    rw [List.foldl_cons, List.foldl_nil,
      step_of_existing o ⟨(ensure_default_icon fs).1, [], []⟩ m b (by rw [hrp]; exact hb)]
    have hv : "/icons/" ++ slugify m ++ ".png" = "/icons/default.png" := by
      rw [hslug]
      decide
    rw [hv]
    rfl

/-- **C10 witness**: the identifier `"Default!"` (slug `default`) on an empty
directory with a dead network. -/
theorem C10_default_slug_witness :
    lookupMap (run_pipeline oracleErr ["Default!"] []).map "Default!"
      = some "/icons/default.png"
    ∧ run_pipeline oracleErr ["Default!"] []
        = ⟨[("default.png", transparent_png)], [], [("Default!", "/icons/default.png")]⟩ := by
  have h := C10_default_slug_maps_to_default oracleErr [] ["Default!"] "Default!"
    (by decide) (List.mem_cons_self "Default!" [])
  refine ⟨h.1, ?_⟩
  rw [h.2]
  decide

/-! ### Character and order lemmas for the serializer -/

theorem char_toNat_inj {c d : Char} (h : c.toNat = d.toNat) : c = d := by
  have h1 := Char.ofNat_toNat c
  have h2 := Char.ofNat_toNat d
  rw [← h1, ← h2, h]

theorem toNat_ofNat_of_validChar {n : Nat} (h : n.isValidChar) : (Char.ofNat n).toNat = n := by
  rw [Char.ofNat, dif_pos h]
  rfl

theorem char_valid_ranges (c : Char) :
    c.toNat < 0xd800 ∨ (0xdfff < c.toNat ∧ c.toNat < 0x110000) := c.valid

theorem lexLt_irrefl : ∀ l : List Char, lexLt l l = false := by
  intro l
  induction l with
  | nil => rfl
  | cons a as ih =>
    unfold lexLt
    rw [if_neg (by omega), if_neg (by omega)]
    exact ih

theorem lexLt_asymm : ∀ {l₁ l₂ : List Char}, lexLt l₁ l₂ = true → lexLt l₂ l₁ = false := by
  intro l₁
  induction l₁ with
  | nil =>
    intro l₂ h
    cases l₂ with
    | nil => simp [lexLt] at h
    | cons b bs => rfl
  | cons a as ih =>
    intro l₂ h
    cases l₂ with
    | nil => simp [lexLt] at h
    | cons b bs =>
      unfold lexLt at h ⊢
      by_cases hab : a.toNat < b.toNat
      · rw [if_neg (by omega), if_pos hab]
      · by_cases hba : b.toNat < a.toNat
        · rw [if_neg hab, if_pos hba] at h
          simp at h
        · rw [if_neg hab, if_neg hba] at h
          rw [if_neg hba, if_neg hab]
          exact ih h

theorem lexLt_trans :
    ∀ {l₁ l₂ l₃ : List Char}, lexLt l₁ l₂ = true → lexLt l₂ l₃ = true → lexLt l₁ l₃ = true := by
  intro l₁
  induction l₁ with
  | nil =>
    intro l₂ l₃ h12 h23
    cases l₂ with
    | nil => simp [lexLt] at h12
    | cons b bs =>
      cases l₃ with
      | nil => simp [lexLt] at h23
      | cons c cs => rfl
  | cons a as ih =>
    intro l₂ l₃ h12 h23
    cases l₂ with
    | nil => simp [lexLt] at h12
    | cons b bs =>
      cases l₃ with
      | nil => simp [lexLt] at h23
      | cons c cs =>
        unfold lexLt at h12 h23 ⊢
        by_cases hab : a.toNat < b.toNat
        · by_cases hbc : b.toNat < c.toNat
          · rw [if_pos (by omega)]
          · by_cases hcb : c.toNat < b.toNat
            · rw [if_neg hbc, if_pos hcb] at h23
              simp at h23
            · rw [if_pos (by omega)]
        · by_cases hba : b.toNat < a.toNat
          · rw [if_neg hab, if_pos hba] at h12
            simp at h12
          · rw [if_neg hab, if_neg hba] at h12
            by_cases hbc : b.toNat < c.toNat
            · rw [if_pos (by omega)]
            · by_cases hcb : c.toNat < b.toNat
              · rw [if_neg hbc, if_pos hcb] at h23
                simp at h23
              · rw [if_neg hbc, if_neg hcb] at h23
                rw [if_neg (by omega), if_neg (by omega)]
                exact ih h12 h23

theorem lexLt_conn :
    ∀ {l₁ l₂ : List Char}, lexLt l₁ l₂ = false → lexLt l₂ l₁ = false → l₁ = l₂ := by
  intro l₁
  induction l₁ with
  | nil =>
    intro l₂ h12 _
    cases l₂ with
    | nil => rfl
    | cons b bs => simp [lexLt] at h12
  | cons a as ih =>
    intro l₂ h12 h21
    cases l₂ with
    | nil => simp [lexLt] at h21
    | cons b bs =>
      unfold lexLt at h12 h21
      by_cases hab : a.toNat < b.toNat
      · rw [if_pos hab] at h12
        simp at h12
      · by_cases hba : b.toNat < a.toNat
        · rw [if_pos hba] at h21
          simp at h21
        · rw [if_neg hab, if_neg hba] at h12
          rw [if_neg hba, if_neg hab] at h21
          have hhead : a = b := char_toNat_inj (by omega)
          rw [hhead, ih h12 h21]

theorem pairLe_iff {a b : String × String} :
    pairLe a b ↔
      lexLt a.1.data b.1.data = true
      ∨ (a.1 = b.1 ∧ (lexLt a.2.data b.2.data = true ∨ a.2 = b.2)) := by
  unfold pairLe pairLeB
  simp only [Bool.or_eq_true, Bool.and_eq_true, beq_iff_eq]
  constructor
  · rintro (h | ⟨hk, hv | hv⟩)
    · exact Or.inl h
    · exact Or.inr ⟨String.ext hk, Or.inl hv⟩
    · exact Or.inr ⟨String.ext hk, Or.inr (String.ext hv)⟩
  · rintro (h | ⟨hk, hv | hv⟩)
    · exact Or.inl h
    · exact Or.inr ⟨congrArg String.data hk, Or.inl hv⟩
    · exact Or.inr ⟨congrArg String.data hk, Or.inr (congrArg String.data hv)⟩

instance : IsTotal (String × String) pairLe :=
  ⟨fun a b => by
    rw [pairLe_iff, pairLe_iff]
    by_cases h1 : lexLt a.1.data b.1.data = true
    · exact Or.inl (Or.inl h1)
    · by_cases h2 : lexLt b.1.data a.1.data = true
      · exact Or.inr (Or.inl h2)
      · have hk : a.1 = b.1 :=
          String.ext (lexLt_conn (Bool.eq_false_iff.mpr h1) (Bool.eq_false_iff.mpr h2))
        by_cases h3 : lexLt a.2.data b.2.data = true
        · exact Or.inl (Or.inr ⟨hk, Or.inl h3⟩)
        · by_cases h4 : lexLt b.2.data a.2.data = true
          · exact Or.inr (Or.inr ⟨hk.symm, Or.inl h4⟩)
          · have hv : a.2 = b.2 :=
              String.ext (lexLt_conn (Bool.eq_false_iff.mpr h3) (Bool.eq_false_iff.mpr h4))
            exact Or.inl (Or.inr ⟨hk, Or.inr hv⟩)⟩

instance : IsAntisymm (String × String) pairLe :=
  ⟨fun a b hab hba => by
    rw [pairLe_iff] at hab hba
    rcases hab with h | ⟨hk, hv⟩
    · rcases hba with h2 | ⟨hk2, _⟩
      · rw [lexLt_asymm h] at h2
        exact absurd h2 (by simp)
      · rw [congrArg String.data hk2] at h
        rw [lexLt_irrefl] at h
        exact absurd h (by simp)
    · rcases hba with h2 | ⟨_, hv2⟩
      · rw [congrArg String.data hk] at h2
        rw [lexLt_irrefl] at h2
        exact absurd h2 (by simp)
      · rcases hv with hv | hv
        · rcases hv2 with hv2 | hv2
          · rw [lexLt_asymm hv] at hv2
            exact absurd hv2 (by simp)
          · rw [congrArg String.data hv2] at hv
            rw [lexLt_irrefl] at hv
            exact absurd hv (by simp)
        · exact Prod.ext hk hv⟩

instance : IsTrans (String × String) pairLe :=
  ⟨fun a b c hab hbc => by
    rw [pairLe_iff] at hab hbc ⊢
    rcases hab with h1 | ⟨hk1, hv1⟩
    · rcases hbc with h2 | ⟨hk2, _⟩
      · exact Or.inl (lexLt_trans h1 h2)
      · rw [congrArg String.data hk2] at h1
        exact Or.inl h1
    · rcases hbc with h2 | ⟨hk2, hv2⟩
      · rw [← congrArg String.data hk1] at h2
        exact Or.inl h2
      · refine Or.inr ⟨hk1.trans hk2, ?_⟩
        rcases hv1 with hv1 | hv1
        · rcases hv2 with hv2 | hv2
          · exact Or.inl (lexLt_trans hv1 hv2)
          · rw [congrArg String.data hv2] at hv1
            exact Or.inl hv1
        · rcases hv2 with hv2 | hv2
          · rw [← congrArg String.data hv1] at hv2
            exact Or.inl hv2
          · exact Or.inr (hv1.trans hv2)⟩

theorem sortPairs_perm (m : List (String × String)) : (sortPairs m).Perm m :=
  List.perm_insertionSort pairLe m

theorem sortPairs_sorted (m : List (String × String)) : List.Sorted pairLe (sortPairs m) :=
  List.sorted_insertionSort pairLe m

theorem sortPairs_eq_of_perm {m₁ m₂ : List (String × String)} (h : m₁.Perm m₂) :
    sortPairs m₁ = sortPairs m₂ :=
  List.eq_of_perm_of_sorted ((sortPairs_perm m₁).trans (h.trans (sortPairs_perm m₂).symm))
    (sortPairs_sorted m₁) (sortPairs_sorted m₂)

theorem sortPairs_idem (m : List (String × String)) : sortPairs (sortPairs m) = sortPairs m :=
  List.eq_of_perm_of_sorted (sortPairs_perm (sortPairs m)) (sortPairs_sorted (sortPairs m))
    (sortPairs_sorted m)

/-! ### Hex and surrogate arithmetic -/

theorem hexVal_hexDigit : ∀ d : Nat, d < 16 → hexVal (hexDigit d) = some d := by decide

theorem parseHex4_toHex4 (n : Nat) (h : n < 0x10000) (rest : List Char) :
    parseHex4 (toHex4 n ++ rest) = some (n, rest) := by
  have h1 := hexVal_hexDigit (n / 4096 % 16) (Nat.mod_lt _ (by norm_num))
  have h2 := hexVal_hexDigit (n / 256 % 16) (Nat.mod_lt _ (by norm_num))
  have h3 := hexVal_hexDigit (n / 16 % 16) (Nat.mod_lt _ (by norm_num))
  have h4 := hexVal_hexDigit (n % 16) (Nat.mod_lt _ (by norm_num))
  have harith : ((n / 4096 % 16 * 16 + n / 256 % 16) * 16 + n / 16 % 16) * 16 + n % 16 = n := by
    omega
  simp only [toHex4, List.cons_append, List.nil_append, parseHex4, h1, h2, h3, h4, harith]

set_option maxRecDepth 4096 in
theorem lor_d800 : ∀ x : Nat, x < 1024 → 0xd800 ||| x = 0xd800 + x := by decide

set_option maxRecDepth 4096 in
theorem lor_dc00 : ∀ x : Nat, x < 1024 → 0xdc00 ||| x = 0xdc00 + x := by decide

theorem and_3ff_eq_mod (x : Nat) : x &&& 0x3ff = x % 1024 := by
  have h : (0x3ff : Nat) = 2 ^ 10 - 1 := by norm_num
  rw [h, Nat.and_pow_two_sub_one_eq_mod]

theorem shiftRight10_eq_div (x : Nat) : x >>> 10 = x / 1024 := by
  rw [Nat.shiftRight_eq_div_pow]

/-! ### Escaping round-trip -/

/-- `parseEsc` on a `\uXXXX` escape outside the surrogate range. -/
theorem parseEsc_bmp (n : Nat) (hn : n < 0x10000)
    (hns : ¬ (0xd800 ≤ n ∧ n < 0xdc00)) (hns2 : ¬ (0xdc00 ≤ n ∧ n < 0xe000))
    (X : List Char) :
    parseEsc ('u' :: (toHex4 n ++ X)) = some (Char.ofNat n, X) := by
  simp only [parseEsc]
  rw [if_pos trivial, parseHex4_toHex4 n hn]
  show (if 0xd800 ≤ n ∧ n < 0xdc00 then _ else
    if 0xdc00 ≤ n ∧ n < 0xe000 then none else some (Char.ofNat n, X)) = some (Char.ofNat n, X)
  rw [if_neg hns, if_neg hns2]

/-- `parseEsc` on a surrogate pair. -/
theorem parseEsc_surrogatePair (A B : Nat) (hA : 0xd800 ≤ A ∧ A < 0xdc00)
    (hB : 0xdc00 ≤ B ∧ B < 0xe000) (X : List Char) :
    parseEsc ('u' :: (toHex4 A ++ ('\\' :: 'u' :: (toHex4 B ++ X))))
      = some (Char.ofNat (0x10000 + (A - 0xd800) * 0x400 + (B - 0xdc00)), X) := by
  simp only [parseEsc]
  rw [if_pos trivial, parseHex4_toHex4 _ (by omega)]
  show (if 0xd800 ≤ A ∧ A < 0xdc00 then _ else _)
      = some (Char.ofNat (0x10000 + (A - 0xd800) * 0x400 + (B - 0xdc00)), X)
  rw [if_pos hA]
  show (match parseHex4 (toHex4 B ++ X) with
    | none => none
    | some (n2, cs4) =>
      if 0xdc00 ≤ n2 ∧ n2 < 0xe000 then
        some (Char.ofNat (0x10000 + (A - 0xd800) * 0x400 + (n2 - 0xdc00)), cs4)
      else none) = some (Char.ofNat (0x10000 + (A - 0xd800) * 0x400 + (B - 0xdc00)), X)
  rw [parseHex4_toHex4 _ (by omega)]
  show (if 0xdc00 ≤ B ∧ B < 0xe000 then
      some (Char.ofNat (0x10000 + (A - 0xd800) * 0x400 + (B - 0xdc00)), X) else none)
      = some (Char.ofNat (0x10000 + (A - 0xd800) * 0x400 + (B - 0xdc00)), X)
  rw [if_pos hB]

/-- Every character is escaped either to itself (printable ASCII) or to a
backslash escape that `parseEsc` decodes back to it. -/
theorem escapeChar_shape (c : Char) :
    (escapeChar c = [c] ∧ 0x20 ≤ c.toNat ∧ c.toNat ≤ 0x7e ∧ c ≠ '\\' ∧ c ≠ '"')
    ∨ ∃ t, escapeChar c = '\\' :: t ∧ ∀ X, parseEsc (t ++ X) = some (c, X) := by
  by_cases h1 : c = '\\'
  · subst h1
    refine Or.inr ⟨['\\'], by decide, fun X => ?_⟩
    simp [parseEsc, escTable]
  by_cases h2 : c = '"'
  · subst h2
    refine Or.inr ⟨['"'], by decide, fun X => ?_⟩
    simp [parseEsc, escTable]
  by_cases h3 : 0x20 ≤ c.toNat ∧ c.toNat ≤ 0x7e
  · refine Or.inl ⟨?_, h3.1, h3.2, h1, h2⟩
    unfold escapeChar
    rw [if_neg h1, if_neg h2, if_pos h3]
  by_cases h4 : c = '\n'
  · subst h4
    refine Or.inr ⟨['n'], by decide, fun X => ?_⟩
    simp [parseEsc, escTable]
  by_cases h5 : c = '\t'
  · subst h5
    refine Or.inr ⟨['t'], by decide, fun X => ?_⟩
    simp [parseEsc, escTable]
  by_cases h6 : c = '\r'
  · subst h6
    refine Or.inr ⟨['r'], by decide, fun X => ?_⟩
    simp [parseEsc, escTable]
  by_cases h7 : c.toNat = 8
  · have hc : c = Char.ofNat 8 := by
      rw [← h7, Char.ofNat_toNat]
    subst hc
    refine Or.inr ⟨['b'], by decide, fun X => ?_⟩
    simp [parseEsc, escTable]
  by_cases h8 : c.toNat = 12
  · have hc : c = Char.ofNat 12 := by
      rw [← h8, Char.ofNat_toNat]
    subst hc
    refine Or.inr ⟨['f'], by decide, fun X => ?_⟩
    simp [parseEsc, escTable]
  by_cases h9 : c.toNat < 0x10000
  · refine Or.inr ⟨'u' :: toHex4 c.toNat, ?_, fun X => ?_⟩
    · unfold escapeChar
      rw [if_neg h1, if_neg h2, if_neg h3, if_neg h4, if_neg h5, if_neg h6, if_neg h7,
        if_neg h8, if_pos h9]
    · have hns : ¬ (0xd800 ≤ c.toNat ∧ c.toNat < 0xdc00) := by
        rcases char_valid_ranges c with h | ⟨h, _⟩ <;> omega
      have hns2 : ¬ (0xdc00 ≤ c.toNat ∧ c.toNat < 0xe000) := by
        rcases char_valid_ranges c with h | ⟨h, _⟩ <;> omega
      show parseEsc ('u' :: (toHex4 c.toNat ++ X)) = some (c, X)
      rw [parseEsc_bmp c.toNat h9 hns hns2, Char.ofNat_toNat]
  · have hlt : c.toNat < 0x110000 := by
      rcases char_valid_ranges c with h | ⟨_, h⟩ <;> omega
    have hmlt : c.toNat - 0x10000 < 0x100000 := by omega
    have hdivlt : (c.toNat - 0x10000) / 1024 < 1024 := by omega
    have hmodlt : (c.toNat - 0x10000) % 1024 < 1024 := Nat.mod_lt _ (by norm_num)
    have hhi : 0xd800 ||| (((c.toNat - 0x10000) >>> 10) &&& 0x3ff)
        = 0xd800 + (c.toNat - 0x10000) / 1024 := by
      rw [shiftRight10_eq_div, and_3ff_eq_mod, Nat.mod_eq_of_lt hdivlt]
      exact lor_d800 _ hdivlt
    have hlo : 0xdc00 ||| ((c.toNat - 0x10000) &&& 0x3ff)
        = 0xdc00 + (c.toNat - 0x10000) % 1024 := by
      rw [and_3ff_eq_mod]
      exact lor_dc00 _ hmodlt
    refine Or.inr ⟨'u' :: toHex4 (0xd800 + (c.toNat - 0x10000) / 1024)
      ++ '\\' :: 'u' :: toHex4 (0xdc00 + (c.toNat - 0x10000) % 1024), ?_, fun X => ?_⟩
    · unfold escapeChar
      rw [if_neg h1, if_neg h2, if_neg h3, if_neg h4, if_neg h5, if_neg h6, if_neg h7,
        if_neg h8, if_neg h9, hhi, hlo]
      rfl
    · show parseEsc ('u' :: (toHex4 (0xd800 + (c.toNat - 0x10000) / 1024)
        ++ ('\\' :: 'u' :: (toHex4 (0xdc00 + (c.toNat - 0x10000) % 1024) ++ X)))) = some (c, X)
      have hval : 0x10000 + (0xd800 + (c.toNat - 0x10000) / 1024 - 0xd800) * 0x400
          + (0xdc00 + (c.toNat - 0x10000) % 1024 - 0xdc00) = c.toNat := by
        omega
      rw [parseEsc_surrogatePair _ _ (by omega) (by omega) X, hval, Char.ofNat_toNat]

theorem escapeChar_length_pos (c : Char) : 0 < (escapeChar c).length := by
  rcases escapeChar_shape c with ⟨he, _⟩ | ⟨t, he, _⟩ <;> rw [he] <;> simp

theorem escapeList_len_ge : ∀ s : List Char, s.length ≤ (escapeList s).length := by
  intro s
  induction s with
  | nil => simp [escapeList]
  | cons c cs ih =>
    simp only [escapeList, List.length_cons, List.length_append]
    have hc := escapeChar_length_pos c
    omega

/-- Inverting the escaping of a whole string: the parser consumes exactly the
escaped content plus the closing quote. -/
theorem parseJStr_escape :
    ∀ (s : List Char) (fuel : Nat) (rest : List Char), s.length < fuel →
      parseJStr fuel (escapeList s ++ '"' :: rest) = some (s, rest) := by
  intro s
  induction s with
  | nil =>
    intro fuel rest hf
    cases fuel with
    | zero => omega
    | succ f => simp [escapeList, parseJStr]
  | cons c cs ih =>
    intro fuel rest hf
    cases fuel with
    | zero => omega
    | succ f =>
      have hcs : cs.length < f := by
        simp only [List.length_cons] at hf
        omega
      have ihc := ih f rest hcs
      show parseJStr (f + 1) ((escapeChar c ++ escapeList cs) ++ '"' :: rest)
        = some (c :: cs, rest)
      rw [List.append_assoc]
      rcases escapeChar_shape c with ⟨he, _, _, hbs, hq⟩ | ⟨t, he, hp⟩
      · rw [he]
        show parseJStr (f + 1) (c :: (escapeList cs ++ '"' :: rest)) = some (c :: cs, rest)
        simp only [parseJStr]
        rw [if_neg hq, if_neg hbs, ihc]
        rfl
      · rw [he]
        show parseJStr (f + 1) ('\\' :: (t ++ (escapeList cs ++ '"' :: rest)))
          = some (c :: cs, rest)
        simp only [parseJStr]
        rw [if_pos trivial, hp (escapeList cs ++ '"' :: rest)]
        show (parseJStr f (escapeList cs ++ '"' :: rest)).map (fun r => (c :: r.1, r.2))
          = some (c :: cs, rest)
        rw [ihc]
        rfl

/-! ### Parsing rendered items -/

theorem skipWs_ws_cons {c : Char} (h : isWsChar c = true) (l : List Char) :
    skipWs (c :: l) = skipWs l := by
  simp [skipWs, List.dropWhile_cons, h]

theorem skipWs_not_cons {c : Char} (h : isWsChar c = false) (l : List Char) :
    skipWs (c :: l) = c :: l := by
  simp [skipWs, List.dropWhile_cons, h]

theorem skipWs_append_ws :
    ∀ (lead : List Char), (∀ c ∈ lead, isWsChar c = true) →
      ∀ l, skipWs (lead ++ l) = skipWs l := by
  intro lead
  induction lead with
  | nil => intro _ l; rfl
  | cons c cs ih =>
    intro h l
    rw [List.cons_append, skipWs_ws_cons (h c (List.mem_cons_self c cs))]
    exact ih (fun d hd => h d (List.mem_cons_of_mem c hd)) l

/-- Shared work for one rendered item: consume the indent, the quoted escaped
key, the `": "`, and the quoted escaped value, leaving the separator. -/
theorem parseEntries_unfold_entry (f : Nat) (k v : String) (lead sep : List Char)
    (hlead : ∀ c ∈ lead, isWsChar c = true) :
    parseEntries (f + 1) (lead ++ (entryLine (k, v) ++ sep))
      = (match skipWs sep with
         | ',' :: r5 => (parseEntries f r5).map (fun rest => (k, v) :: rest)
         | '\x7d' :: r5 => if skipWs r5 = [] then some [(k, v)] else none
         | _ => none) := by
  have h1 : skipWs (lead ++ (entryLine (k, v) ++ sep))
      = '"' :: (escapeList k.data
          ++ '"' :: (':' :: ' ' :: '"' :: (escapeList v.data ++ '"' :: sep))) := by
    rw [skipWs_append_ws lead hlead]
    show skipWs (' ' :: ' ' :: '"' :: ((escapeList k.data
      ++ '"' :: ':' :: ' ' :: '"' :: (escapeList v.data ++ ['"'])) ++ sep)) = _
    rw [skipWs_ws_cons (by decide), skipWs_ws_cons (by decide), skipWs_not_cons (by decide)]
    simp [List.append_assoc, List.cons_append]
  have h2 : parseJStr ((escapeList k.data
      ++ '"' :: (':' :: ' ' :: '"' :: (escapeList v.data ++ '"' :: sep))).length + 1)
      (escapeList k.data ++ '"' :: (':' :: ' ' :: '"' :: (escapeList v.data ++ '"' :: sep)))
      = some (k.data, ':' :: ' ' :: '"' :: (escapeList v.data ++ '"' :: sep)) := by
    apply parseJStr_escape
    have hk := escapeList_len_ge k.data
    simp only [List.length_append, List.length_cons]
    omega
  have h3 : parseJStr ((escapeList v.data ++ '"' :: sep).length + 1)
      (escapeList v.data ++ '"' :: sep) = some (v.data, sep) := by
    apply parseJStr_escape
    have hv := escapeList_len_ge v.data
    simp only [List.length_append, List.length_cons]
    omega
  simp only [parseEntries, h1, h2, skipWs_not_cons (show isWsChar ':' = false by decide),
    skipWs_ws_cons (show isWsChar ' ' = true by decide),
    skipWs_not_cons (show isWsChar '"' = false by decide), h3]

/-- Parsing the rendered item block of a non-empty map recovers the items. -/
theorem parseEntries_render :
    ∀ (items : List (String × String)) (fuel : Nat) (lead : List Char),
      items ≠ [] → items.length < fuel → (∀ c ∈ lead, isWsChar c = true) →
      parseEntries fuel (lead ++ (renderEntries items ++ '\n' :: '\x7d' :: ['\n']))
        = some items := by
  intro items
  induction items with
  | nil => intro fuel lead hne _ _; exact absurd rfl hne
  | cons e rest ih =>
    intro fuel lead _ hf hlead
    obtain ⟨k, v⟩ := e
    cases fuel with
    | zero => omega
    | succ f =>
      cases rest with
      | nil =>
        show parseEntries (f + 1)
          (lead ++ (entryLine (k, v) ++ '\n' :: '\x7d' :: ['\n'])) = some [(k, v)]
        rw [parseEntries_unfold_entry f k v lead ('\n' :: '\x7d' :: ['\n']) hlead]
        simp only [skipWs_ws_cons (show isWsChar '\n' = true by decide),
          skipWs_not_cons (show isWsChar '\x7d' = false by decide)]
        have hnil : skipWs ([] : List Char) = [] := rfl
        simp [hnil]
      | cons e2 rest2 =>
        show parseEntries (f + 1)
          (lead ++ ((entryLine (k, v) ++ ',' :: '\n' :: renderEntries (e2 :: rest2))
            ++ '\n' :: '\x7d' :: ['\n'])) = some ((k, v) :: e2 :: rest2)
        have hsh : (entryLine (k, v) ++ ',' :: '\n' :: renderEntries (e2 :: rest2))
            ++ '\n' :: '\x7d' :: ['\n']
            = entryLine (k, v)
              ++ (',' :: '\n' :: (renderEntries (e2 :: rest2) ++ '\n' :: '\x7d' :: ['\n'])) := by
          simp [List.append_assoc]
        rw [hsh, parseEntries_unfold_entry f k v lead
          (',' :: '\n' :: (renderEntries (e2 :: rest2) ++ '\n' :: '\x7d' :: ['\n'])) hlead]
        simp only [skipWs_not_cons (show isWsChar ',' = false by decide)]
        have hih := ih f ['\n'] (by simp) (by simp at hf ⊢; omega) (by decide)
        rw [List.cons_append, List.nil_append] at hih
        rw [hih]
        rfl

theorem renderEntries_len_ge :
    ∀ items : List (String × String), items.length ≤ (renderEntries items).length := by
  intro items
  induction items with
  | nil => simp [renderEntries]
  | cons e rest ih =>
    cases rest with
    | nil =>
      show (1 : Nat) ≤ (entryLine e).length
      simp [entryLine]
    | cons e2 r2 =>
      show (e :: e2 :: r2).length
        ≤ (entryLine e ++ ',' :: '\n' :: renderEntries (e2 :: r2)).length
      simp only [List.length_append, List.length_cons]
      simp only [List.length_cons] at ih
      have h1 : 0 < (entryLine e).length := by simp [entryLine]
      omega

theorem renderEntries_cons_shape (e : String × String) (rest : List (String × String)) :
    ∃ Y, renderEntries (e :: rest) = ' ' :: ' ' :: '"' :: Y := by
  obtain ⟨k, v⟩ := e
  cases rest with
  | nil => exact ⟨_, rfl⟩
  | cons e2 r2 => exact ⟨_, rfl⟩

/-- Parsing the output of the serializer recovers exactly the sorted items. -/
theorem parse_serializeIconMap (m : List (String × String)) :
    parseIconMap (serializeIconMap m) = some (sortPairs m) := by
  cases hs : sortPairs m with
  | nil =>
    have hser : serializeIconMap m = "\x7b\x7d\n" := by
      unfold serializeIconMap
      rw [hs]
    rw [hser]
    decide
  | cons e es =>
    have hser : serializeIconMap m
        = String.mk ('\x7b' :: '\n' :: (renderEntries (e :: es) ++ '\n' :: '\x7d' :: ['\n'])) := by
      unfold serializeIconMap
      rw [hs]
    rw [hser]
    show parseIconMap
      (String.mk ('\x7b' :: '\n' :: (renderEntries (e :: es) ++ '\n' :: '\x7d' :: ['\n'])))
      = some (e :: es)
    obtain ⟨Y, hY⟩ := renderEntries_cons_shape e es
    have hskip : skipWs ('\n' :: (renderEntries (e :: es) ++ '\n' :: '\x7d' :: ['\n']))
        = '"' :: (Y ++ '\n' :: '\x7d' :: ['\n']) := by
      rw [skipWs_ws_cons (by decide), hY]
      show skipWs (' ' :: ' ' :: '"' :: (Y ++ '\n' :: '\x7d' :: ['\n'])) = _
      rw [skipWs_ws_cons (by decide), skipWs_ws_cons (by decide),
        skipWs_not_cons (by decide)]
    have hentries : parseEntries
        (('\n' :: (renderEntries (e :: es) ++ '\n' :: '\x7d' :: ['\n'])).length + 1)
        ('\n' :: (renderEntries (e :: es) ++ '\n' :: '\x7d' :: ['\n'])) = some (e :: es) := by
      have heq : '\n' :: (renderEntries (e :: es) ++ '\n' :: '\x7d' :: ['\n'])
          = ['\n'] ++ (renderEntries (e :: es) ++ '\n' :: '\x7d' :: ['\n']) := rfl
      rw [heq]
      apply parseEntries_render (e :: es) _ ['\n'] (by simp)
      · have hlen := renderEntries_len_ge (e :: es)
        simp only [List.length_cons, List.length_append] at hlen ⊢
        omega
      · intro c hc
        simp at hc
        subst hc
        decide
    simp only [parseIconMap, skipWs_not_cons (show isWsChar '\x7b' = false by decide),
      hskip, hentries]
    rfl

/-! ### Remaining serializer facts -/

theorem serialize_eq_of_perm {m₁ m₂ : List (String × String)} (h : m₁.Perm m₂) :
    serializeIconMap m₁ = serializeIconMap m₂ := by
  unfold serializeIconMap
  rw [sortPairs_eq_of_perm h]

theorem serialize_trailing_newline (m : List (String × String)) :
    (serializeIconMap m).data.getLast? = some '\n' := by
  cases hs : sortPairs m with
  | nil =>
    have hser : serializeIconMap m = "\x7b\x7d\n" := by
      unfold serializeIconMap
      rw [hs]
    rw [hser]
    rfl
  | cons e es =>
    have hser : serializeIconMap m
        = String.mk ('\x7b' :: '\n' :: (renderEntries (e :: es) ++ '\n' :: '\x7d' :: ['\n'])) := by
      unfold serializeIconMap
      rw [hs]
    rw [hser]
    show ('\x7b' :: '\n' :: (renderEntries (e :: es) ++ '\n' :: '\x7d' :: ['\n'])).getLast?
      = some '\n'
    have hsh : '\x7b' :: '\n' :: (renderEntries (e :: es) ++ '\n' :: '\x7d' :: ['\n'])
        = ('\x7b' :: '\n' :: (renderEntries (e :: es) ++ ['\n', '\x7d'])) ++ ['\n'] := by
      simp
    rw [hsh, List.getLast?_concat]

theorem hexDigit_ascii : ∀ d : Nat, d < 16 → (hexDigit d).toNat < 128 := by decide

theorem toHex4_ascii (n : Nat) : ∀ x ∈ toHex4 n, x.toNat < 128 := by
  intro x hx
  simp only [toHex4, List.mem_cons, List.not_mem_nil, or_false] at hx
  rcases hx with h | h | h | h <;>
    exact h ▸ hexDigit_ascii _ (Nat.mod_lt _ (by norm_num))

theorem escapeChar_ascii (c : Char) : ∀ x ∈ escapeChar c, x.toNat < 128 := by
  intro x hx
  unfold escapeChar at hx
  split_ifs at hx with h1 h2 h3 h4 h5 h6 h7 h8 h9
  · simp only [List.mem_cons, List.not_mem_nil, or_false] at hx
    rcases hx with h | h <;> subst h <;> decide
  · simp only [List.mem_cons, List.not_mem_nil, or_false] at hx
    rcases hx with h | h <;> subst h <;> decide
  · simp only [List.mem_cons, List.not_mem_nil, or_false] at hx
    subst hx
    omega
  · simp only [List.mem_cons, List.not_mem_nil, or_false] at hx
    rcases hx with h | h <;> subst h <;> decide
  · simp only [List.mem_cons, List.not_mem_nil, or_false] at hx
    rcases hx with h | h <;> subst h <;> decide
  · simp only [List.mem_cons, List.not_mem_nil, or_false] at hx
    rcases hx with h | h <;> subst h <;> decide
  · simp only [List.mem_cons, List.not_mem_nil, or_false] at hx
    rcases hx with h | h <;> subst h <;> decide
  · simp only [List.mem_cons, List.not_mem_nil, or_false] at hx
    rcases hx with h | h <;> subst h <;> decide
  · rcases List.mem_cons.mp hx with h | hx2
    · subst h; decide
    rcases List.mem_cons.mp hx2 with h | hx3
    · subst h; decide
    exact toHex4_ascii _ x hx3
  · rcases List.mem_append.mp hx with hx1 | hx1
    · rcases List.mem_cons.mp hx1 with h | hx2
      · subst h; decide
      rcases List.mem_cons.mp hx2 with h | hx3
      · subst h; decide
      exact toHex4_ascii _ x hx3
    · rcases List.mem_cons.mp hx1 with h | hx2
      · subst h; decide
      rcases List.mem_cons.mp hx2 with h | hx3
      · subst h; decide
      exact toHex4_ascii _ x hx3

theorem escapeList_ascii : ∀ (s : List Char), ∀ x ∈ escapeList s, x.toNat < 128 := by
  intro s
  induction s with
  | nil => intro x hx; simp [escapeList] at hx
  | cons c cs ih =>
    intro x hx
    simp only [escapeList, List.mem_append] at hx
    rcases hx with h | h
    · exact escapeChar_ascii c x h
    · exact ih x h

theorem entryLine_ascii (e : String × String) : ∀ x ∈ entryLine e, x.toNat < 128 := by
  intro x hx
  simp only [entryLine, List.mem_cons, List.mem_append] at hx
  rcases hx with h | h | h | h | h | h | h | h | h | h
  · subst h; decide
  · subst h; decide
  · subst h; decide
  · exact escapeList_ascii _ x h
  · subst h; decide
  · subst h; decide
  · subst h; decide
  · subst h; decide
  · exact escapeList_ascii _ x h
  · simp only [List.mem_cons, List.not_mem_nil, or_false] at h
    subst h
    decide

theorem renderEntries_ascii :
    ∀ (items : List (String × String)), ∀ x ∈ renderEntries items, x.toNat < 128 := by
  intro items
  induction items with
  | nil => intro x hx; simp [renderEntries] at hx
  | cons e rest ih =>
    cases rest with
    | nil =>
      intro x hx
      exact entryLine_ascii e x hx
    | cons e2 r2 =>
      intro x hx
      simp only [renderEntries, List.mem_append, List.mem_cons] at hx
      rcases hx with h | h | h | h
      · exact entryLine_ascii e x h
      · subst h; decide
      · subst h; decide
      · exact ih x h

theorem serialize_ascii (m : List (String × String)) :
    (serializeIconMap m).data.all (fun c => c.toNat < 128) = true := by
  rw [List.all_eq_true]
  intro x hx
  cases hs : sortPairs m with
  | nil =>
    have hser : serializeIconMap m = "\x7b\x7d\n" := by
      unfold serializeIconMap
      rw [hs]
    rw [hser] at hx
    simp only [decide_eq_true_eq]
    have hx2 : x = '\x7b' ∨ x = '\x7d' ∨ x = '\n' := by
      simpa [show ("\x7b\x7d\n").data = ['\x7b', '\x7d', '\n'] from rfl] using hx
    rcases hx2 with h | h | h <;> subst h <;> decide
  | cons e es =>
    have hser : serializeIconMap m
        = String.mk ('\x7b' :: '\n' :: (renderEntries (e :: es) ++ '\n' :: '\x7d' :: ['\n'])) := by
      unfold serializeIconMap
      rw [hs]
    rw [hser] at hx
    simp only [decide_eq_true_eq]
    have hx2 : x ∈ '\x7b' :: '\n' :: (renderEntries (e :: es) ++ '\n' :: '\x7d' :: ['\n']) := hx
    simp only [List.mem_cons, List.mem_append] at hx2
    rcases hx2 with h | h | h | h | h | h
    · subst h; decide
    · subst h; decide
    · exact renderEntries_ascii _ x h
    · subst h; decide
    · subst h; decide
    · simp only [List.mem_cons, List.not_mem_nil, or_false] at h
      subst h
      decide

theorem sortPairs_keys_sorted (m : List (String × String)) :
    ((sortPairs m).map Prod.fst).Pairwise
      (fun a b => lexLt a.data b.data = true ∨ a = b) := by
  apply List.Pairwise.map Prod.fst
  · intro a b hab
    rcases pairLe_iff.mp hab with h | ⟨hk, _⟩
    · exact Or.inl h
    · exact Or.inr hk
  · exact sortPairs_sorted m

/-! ### Claim C8: the mapping serializer -/

/-- **C8**: `safe_write_json` fully overwrites the target path with a
serialization whose content is independent of the input iteration order, whose
item keys appear in code-point (lexicographic) order, which ends in a newline
and consists of ASCII characters only (hence is valid UTF-8), and which
round-trips: parsing it yields the sorted items, and re-serializing the parsed
items is byte-identical. -/
theorem C8_serializer_deterministic (fs : FS String) (path : String)
    (m₁ m₂ : List (String × String)) (hperm : m₁.Perm m₂) :
    serializeIconMap m₁ = serializeIconMap m₂
    ∧ lookupFs (safe_write_json fs path m₁) path = some (serializeIconMap m₁)
    ∧ (serializeIconMap m₁).data.getLast? = some '\n'
    ∧ (serializeIconMap m₁).data.all (fun c => c.toNat < 128) = true
    ∧ ((sortPairs m₁).map Prod.fst).Pairwise
        (fun a b => lexLt a.data b.data = true ∨ a = b)
    ∧ parseIconMap (serializeIconMap m₁) = some (sortPairs m₁)
    ∧ serializeIconMap (sortPairs m₁) = serializeIconMap m₁ :=
  ⟨serialize_eq_of_perm hperm,
   lookupFs_insertFs_self fs path (serializeIconMap m₁),
   serialize_trailing_newline m₁,
   serialize_ascii m₁,
   sortPairs_keys_sorted m₁,
   parse_serializeIconMap m₁,
   by unfold serializeIconMap; rw [sortPairs_idem]⟩

/-- **C8 witness**: two enumeration orders of the same two-entry map. -/
theorem C8_serializer_witness :
    serializeIconMap [("b", "/icons/b.png"), ("a", "/icons/a.png")]
      = serializeIconMap [("a", "/icons/a.png"), ("b", "/icons/b.png")]
    ∧ parseIconMap (serializeIconMap [("b", "/icons/b.png"), ("a", "/icons/a.png")])
      = some (sortPairs [("b", "/icons/b.png"), ("a", "/icons/a.png")]) :=
  ⟨(C8_serializer_deterministic [] "model-icons.json" _ _
      (List.Perm.swap ("a", "/icons/a.png") ("b", "/icons/b.png") [])).1,
   (C8_serializer_deterministic [] "model-icons.json"
      [("b", "/icons/b.png"), ("a", "/icons/a.png")] [("a", "/icons/a.png"), ("b", "/icons/b.png")]
      (List.Perm.swap ("a", "/icons/a.png") ("b", "/icons/b.png") [])).2.2.2.2.2.1⟩

end MIF
